import Mathlib

/-!
Verification of the dlstats fetcher modules (BIS, ECB, IMF) against their
natural-language specification.  Every definition below is a shallow
embedding of a function of the repository (`dlstats/fetchers/bis.py`,
`dlstats/fetchers/ecb.py`, `dlstats/fetchers/imf.py`); Python exceptions are
modelled by `Option`/`Except` failure, Python dictionaries by association
lists that keep insertion order, and Python datetimes by explicit
year/month/day records.  External library helpers that the spec excludes as
collaborators (the period-to-ordinal converters, the pandas period
constructor, the SDMX download client) are parameters of the embedded
functions.
-/

namespace Dlstats

/-- A Python `datetime.datetime` value, restricted to the fields the
fetchers ever construct or compare. -/
structure PyDateTime where
  year : Nat
  month : Nat
  day : Nat
  hour : Nat
  minute : Nat
  second : Nat
deriving DecidableEq, Repr

/-- Digit test used by the `strptime` model. -/
def isDigitChar (c : Char) : Bool :=
  '0' ≤ c ∧ c ≤ '9'

/-- Parse a non-empty all-digit character list to a `Nat`
(model of the regex groups CPython `_strptime` builds for numeric fields). -/
def digitsToNat : List Char → Option Nat
  | [] => none
  | cs =>
    if cs.all isDigitChar then
      some (cs.foldl (fun acc c => acc * 10 + (c.toNat - '0'.toNat)) 0)
    else
      none

/-- Split a character list on a separator character, Python `str.split(sep)`
style: `n` separators give `n+1` chunks, empty chunks included. -/
def splitOnChar (sep : Char) : List Char → List (List Char)
  | [] => [[]]
  | c :: cs =>
    let rest := splitOnChar sep cs
    if c = sep then
      [] :: rest
    else
      match rest with
      | [] => [[c]]
      | r :: rs => (c :: r) :: rs

/-- Split a character list into whitespace-separated words
(model of the `\s+` separators of the compiled `strptime` regex). -/
def pyWords : List Char → List (List Char)
  | [] => []
  | c :: cs =>
    if c = ' ' then
      pyWords cs
    else
      match pyWords cs with
      | [] => [[c]]
      | r :: rs =>
        match cs with
        | [] => [[c]]
        | c' :: _ => if c' = ' ' then [c] :: r :: rs else (c :: r) :: rs

/-- Weekday abbreviations accepted by `%a`. -/
def strptimeWeekdays : List (List Char) :=
  ["Mon".data, "Tue".data, "Wed".data, "Thu".data, "Fri".data, "Sat".data, "Sun".data]

/-- Month abbreviations accepted by `%b`, in month order. -/
def strptimeMonths : List (List Char) :=
  ["Jan".data, "Feb".data, "Mar".data, "Apr".data, "May".data, "Jun".data,
   "Jul".data, "Aug".data, "Sep".data, "Oct".data, "Nov".data, "Dec".data]

/-- Timezone names accepted by `%Z` (CPython only matches the names it
knows: `UTC`, `GMT` and the local zone; BIS files carry `GMT`). -/
def strptimeTimezones : List (List Char) :=
  ["UTC".data, "GMT".data]

/-- Index of a month abbreviation, 1-based. -/
def monthIndex (w : List Char) : Option Nat :=
  match strptimeMonths.indexOf? w with
  | some i => some (i + 1)
  | none => none

/-- Length of a month, as validated by the `datetime` constructor that
`datetime.strptime` ends in. -/
def daysInMonth (year month : Nat) : Nat :=
  if month = 2 then
    if year % 4 = 0 ∧ (year % 100 ≠ 0 ∨ year % 400 = 0) then 29 else 28
  else if month = 4 ∨ month = 6 ∨ month = 9 ∨ month = 11 then 30
  else 31

/-- Model of Python `datetime.datetime.strptime(s, "%a %b %d %H:%M:%S %Z %Y")`,
the fixed format BIS release dates use (`bis.py` line 47).  Returns `none`
where CPython raises `ValueError`.  Whitespace handling is the simplified
words split above and the weekday/month/timezone alphabets are matched
case-sensitively, which agrees with CPython on every string whose fields are
written in their canonical capitalisation. -/
def pyStrptimeBis (s : String) : Option PyDateTime :=
  match pyWords s.data with
  | [wd, mon, d, hms, tz, y] =>
    if strptimeWeekdays.contains wd = false then none
    else if strptimeTimezones.contains tz = false then none
    else
      match monthIndex mon, digitsToNat d, digitsToNat y with
      | some m, some dayN, some yearN =>
        if d.length ≤ 2 ∧ 1 ≤ dayN ∧ dayN ≤ daysInMonth yearN m ∧ y.length = 4 then
          match splitOnChar ':' hms with
          | [hS, mS, sS] =>
            match digitsToNat hS, digitsToNat mS, digitsToNat sS with
            | some h, some mi, some sec =>
              if hS.length ≤ 2 ∧ mS.length ≤ 2 ∧ sS.length ≤ 2 ∧
                  h ≤ 23 ∧ mi ≤ 59 ∧ sec ≤ 59 then
                some ⟨yearN, m, dayN, h, mi, sec⟩
              else none
            | _, _, _ => none
          | _ => none
        else none
      | _, _, _ => none
  | _ => none

/-! ## BIS: `local_read_csv` (`bis.py` lines 46-93) -/

/-- Result tuple of `local_read_csv` (the `_file` handle aside): the
remaining data rows, the rebuilt header list, the release date and the
header split. -/
structure CsvResult where
  restRows : List (List String)
  headers : List String
  release_date : PyDateTime
  dimension_keys : List String
  periods : List String
deriving DecidableEq, Repr

/-- The metadata loop of `local_read_csv` (`bis.py` lines 74-79): read
`n` rows, remembering `line[1]` of every row that contains a cell equal to
`"Retrieved on"` (later rows overwrite earlier ones).  `none` models an
uncaught exception: `next` hitting the end of the file, or `line[1]` on a
too-short row (`IndexError`).  The `rows.line_num == headers_line` break of
the source fires only on the final pass of `range(headers_line)` for rows
without embedded newlines, so it does not change which rows are read. -/
def readHeaderLines : Nat → List (List String) → Option String →
    Option (Option String × List (List String))
  | 0, rest, acc => some (acc, rest)
  | _ + 1, [], _ => none
  | n + 1, l :: ls, acc =>
    if l ≠ [] ∧ l.contains "Retrieved on" then
      match l.get? 1 with
      | none => none
      | some t => readHeaderLines n ls (some t)
    else
      readHeaderLines n ls acc

/-- The header-splitting loop of `local_read_csv` (`bis.py` lines 85-89):
dimension keys are the cells before the first `"Time Period"` cell and the
remainder of the copy after popping it is the period list. -/
def splitHeaders : List String → List String × List String
  | [] => ([], [])
  | h :: t =>
    if h = "Time Period" then ([], t)
    else
      let (d, p) := splitHeaders t
      (h :: d, p)

/-- `local_read_csv` (`bis.py` lines 46-93) over an in-memory row list.
`strptime` abstracts `datetime.strptime(·, date_format)`; `none` models any
uncaught exception (`StopIteration` from `next`, `IndexError`, the
`TypeError` of `strptime(None, ...)`, or a `ValueError` of the parse). -/
def local_read_csv (lines : List (List String)) (headers_line : Nat)
    (strptime : String → Option PyDateTime) : Option CsvResult :=
  match readHeaderLines headers_line lines none with
  | none => none
  | some (none, _) => none
  | some (some txt, rest) =>
    match strptime txt with
    | none => none
    | some d =>
      match rest with
      | [] => none
      | headers_list :: rest2 =>
        let (dims, periods) := splitHeaders headers_list
        some ⟨rest2, dims ++ ["KEY"] ++ periods, d, dims, periods⟩

end Dlstats

namespace Dlstats

/-- Helper: rows containing no `"Retrieved on"` cell leave the accumulator
of `readHeaderLines` untouched. -/
theorem readHeaderLines_clean (n : Nat) (ls : List (List String))
    (acc : Option String)
    (hn : n ≤ ls.length)
    (hclean : ∀ m ∈ ls.take n, m.contains "Retrieved on" = false) :
    readHeaderLines n ls acc = some (acc, ls.drop n) := by
  induction n generalizing ls acc with
  | zero => simp [readHeaderLines]
  | succ k ih =>
    cases ls with
    | nil => simp at hn
    | cons l ls' =>
      have hcl : l.contains "Retrieved on" = false := by
        apply hclean
        simp [List.take_succ_cons]
      rw [readHeaderLines]
      have hcond : ¬ (l ≠ [] ∧ l.contains "Retrieved on" = true) := by
        rintro ⟨-, h2⟩
        rw [hcl] at h2
        exact Bool.false_ne_true h2
      rw [if_neg hcond]
      apply ih
      · simpa using hn
      · intro m hm
        exact hclean m (by simp [List.take_succ_cons, hm])

end Dlstats

namespace Dlstats

/-- Helper: `next(rows)` past the end of the file raises, so
`readHeaderLines` fails when fewer than `n` rows remain. -/
theorem readHeaderLines_short (n : Nat) (ls : List (List String))
    (acc : Option String) (hn : ls.length < n) :
    readHeaderLines n ls acc = none := by
  induction n generalizing ls acc with
  | zero => simp at hn
  | succ k ih =>
    cases ls with
    | nil => rfl
    | cons l ls' =>
      rw [readHeaderLines]
      by_cases hcond : l ≠ [] ∧ l.contains "Retrieved on" = true
      · rw [if_pos hcond]
        cases h1 : l.get? 1 with
        | none => rfl
        | some t => exact ih ls' (some t) (by simpa using hn)
      · rw [if_neg hcond]
        exact ih ls' acc (by simpa using hn)

/-- Helper: when the last row among the first `n` that contains a
`"Retrieved on"` cell has `txt` at index 1, and every earlier such row has
an index-1 cell, `readHeaderLines` returns `txt` and the remaining rows. -/
theorem readHeaderLines_last (n : Nat) (ls : List (List String))
    (acc : Option String)
    (pre post : List (List String)) (l : List String) (txt : String)
    (hn : n ≤ ls.length)
    (htake : ls.take n = pre ++ l :: post)
    (hlc : l.contains "Retrieved on" = true)
    (hl1 : l.get? 1 = some txt)
    (hpre : ∀ m ∈ pre, m.contains "Retrieved on" = true → ∃ t, m.get? 1 = some t)
    (hpost : ∀ m ∈ post, m.contains "Retrieved on" = false) :
    readHeaderLines n ls acc = some (some txt, ls.drop n) := by
  induction pre generalizing ls acc n with
  | nil =>
    simp only [List.nil_append] at htake
    cases n with
    | zero => simp at htake
    | succ k =>
      cases ls with
      | nil => simp at hn
      | cons l0 ls' =>
        rw [List.take_succ_cons] at htake
        injection htake with h1 h2
        subst h1
        rw [readHeaderLines]
        have hne : l0 ≠ [] := by
          intro h
          subst h
          simp [List.contains] at hlc
        rw [if_pos ⟨hne, hlc⟩, hl1]
        rw [List.drop_succ_cons]
        apply readHeaderLines_clean
        · simpa using hn
        · rw [h2]
          intro m hm
          exact hpost m hm
  | cons p pre' ih =>
    cases n with
    | zero => simp at htake
    | succ k =>
      cases ls with
      | nil => simp at hn
      | cons l0 ls' =>
        rw [List.take_succ_cons] at htake
        injection htake with h1 h2
        subst h1
        rw [readHeaderLines, List.drop_succ_cons]
        by_cases hcond : l0 ≠ [] ∧ l0.contains "Retrieved on" = true
        · obtain ⟨t, ht⟩ := hpre l0 (by simp) hcond.2
          rw [if_pos hcond, ht]
          exact ih k ls' (some t) (by simpa using hn) h2
            (fun m hm hmc => hpre m (by simp [hm]) hmc)
        · rw [if_neg hcond]
          exact ih k ls' acc (by simpa using hn) h2
            (fun m hm hmc => hpre m (by simp [hm]) hmc)

/-- Helper: splitting a header row at its first `"Time Period"` cell. -/
theorem splitHeaders_eq (dims posts : List String)
    (hTP : "Time Period" ∉ dims) :
    splitHeaders (dims ++ "Time Period" :: posts) = (dims, posts) := by
  induction dims with
  | nil => simp [splitHeaders]
  | cons h t ih =>
    have hne : h ≠ "Time Period" := by
      intro he
      exact hTP (by simp [he])
    rw [List.cons_append, splitHeaders, if_neg hne,
      ih (fun hm => hTP (by simp [hm]))]

end Dlstats

namespace Dlstats

/-- C1 (counterexample): in this input the cell `"Retrieved on"` (index 1 of
the first row) is immediately followed by a cell holding a date in the
format `"%a %b %d %H:%M:%S %Z %Y"`, yet `local_read_csv` raises instead of
returning that date: the source reads `line[1]` — here the literal
`"Retrieved on"` — not the cell after the match. -/
theorem bis_local_read_csv_date_not_after_cell :
    pyStrptimeBis "Wed Sep 16 08:13:35 GMT 2015" =
      some ⟨2015, 9, 16, 8, 13, 35⟩ ∧
    local_read_csv
      [["x", "Retrieved on", "Wed Sep 16 08:13:35 GMT 2015"],
       ["A", "Time Period", "2000-Q1"]] 1 pyStrptimeBis = none := by
  constructor
  · decide
  · decide

/-- C1 (amended): when the last row among the first `headers_line` rows
holding a cell `"Retrieved on"` has a cell at index 1 that `strptime`
parses (and every earlier matching row also has an index-1 cell),
`local_read_csv` returns that parsed date as `release_date`, and splits the
header row read immediately afterwards so that `dimension_keys` are the
columns strictly before the first `"Time Period"` column, `periods` the
columns strictly after it, and `headers = dimension_keys ++ ["KEY"] ++
periods`. -/
theorem bis_local_read_csv_spec
    (lines : List (List String)) (headers_line : Nat)
    (strptime : String → Option PyDateTime)
    (pre post : List (List String)) (l : List String) (txt : String)
    (d : PyDateTime) (hdr : List String) (rest2 : List (List String))
    (dims posts : List String)
    (htake : lines.take headers_line = pre ++ l :: post)
    (hlc : l.contains "Retrieved on" = true)
    (hl1 : l.get? 1 = some txt)
    (hpre : ∀ m ∈ pre, m.contains "Retrieved on" = true → ∃ t, m.get? 1 = some t)
    (hpost : ∀ m ∈ post, m.contains "Retrieved on" = false)
    (hparse : strptime txt = some d)
    (hdrop : lines.drop headers_line = hdr :: rest2)
    (hhdr : hdr = dims ++ "Time Period" :: posts)
    (hTP : "Time Period" ∉ dims) :
    local_read_csv lines headers_line strptime =
      some ⟨rest2, dims ++ ["KEY"] ++ posts, d, dims, posts⟩ := by
  have hn : headers_line ≤ lines.length := by
    by_contra hlt
    push_neg at hlt
    rw [List.drop_eq_nil_of_le (Nat.le_of_lt hlt)] at hdrop
    exact List.noConfusion hdrop
  rw [local_read_csv,
    readHeaderLines_last headers_line lines none pre post l txt hn htake hlc
      hl1 hpre hpost]
  dsimp only
  rw [hparse]
  dsimp only
  rw [hdrop]
  dsimp only
  rw [hhdr, splitHeaders_eq dims posts hTP]

/-- C1 (witness): the amended statement evaluated on a two-dimension,
two-period BIS-style file. -/
theorem bis_local_read_csv_spec_witness :
    local_read_csv
      [["Retrieved on", "Wed Sep 16 08:13:35 GMT 2015"],
       ["FREQ", "CTY", "Time Period", "2000-Q1", "2000-Q2"],
       ["Q", "CH", "K1", "1.5", "2.5"]] 1 pyStrptimeBis =
      some ⟨[["Q", "CH", "K1", "1.5", "2.5"]],
            ["FREQ", "CTY", "KEY", "2000-Q1", "2000-Q2"],
            ⟨2015, 9, 16, 8, 13, 35⟩, ["FREQ", "CTY"],
            ["2000-Q1", "2000-Q2"]⟩ :=
  bis_local_read_csv_spec _ _ _ [] []
    ["Retrieved on", "Wed Sep 16 08:13:35 GMT 2015"]
    "Wed Sep 16 08:13:35 GMT 2015" ⟨2015, 9, 16, 8, 13, 35⟩
    ["FREQ", "CTY", "Time Period", "2000-Q1", "2000-Q2"]
    [["Q", "CH", "K1", "1.5", "2.5"]] ["FREQ", "CTY"] ["2000-Q1", "2000-Q2"]
    (by decide) (by decide) (by decide) (by intro m hm; simp at hm)
    (by intro m hm; simp at hm) (by decide) (by decide) (by decide)
    (by decide)

/-- C10: if none of the first `headers_line` rows has a cell equal to
`"Retrieved on"`, `local_read_csv` raises (`strptime(None, ...)` is a
`TypeError`) and never returns a result, in particular never one with a
`None` release date. -/
theorem bis_local_read_csv_no_retrieved_on
    (lines : List (List String)) (headers_line : Nat)
    (strptime : String → Option PyDateTime)
    (h : ∀ m ∈ lines.take headers_line, m.contains "Retrieved on" = false) :
    local_read_csv lines headers_line strptime = none := by
  rw [local_read_csv]
  by_cases hn : headers_line ≤ lines.length
  · rw [readHeaderLines_clean headers_line lines none hn h]
  · rw [readHeaderLines_short headers_line lines none (by omega)]

/-- C10 (witness): a file whose single metadata row lacks the marker. -/
theorem bis_local_read_csv_no_retrieved_on_witness :
    local_read_csv [["a", "b"], ["FREQ", "Time Period", "2000-Q1"]] 1
      pyStrptimeBis = none :=
  bis_local_read_csv_no_retrieved_on _ _ _ (by intro m hm; simp at hm; simp [hm])

end Dlstats

namespace Dlstats

/-! ## Association-list model of Python dictionaries -/

/-- Python `d[k]` read: first (and, for a dict, only) binding of `k`. -/
def assocLookup {β : Type} : List (String × β) → String → Option β
  | [], _ => none
  | (k', v) :: rest, k => if k' = k then some v else assocLookup rest k

/-- Python `d[k] = v`: overwrite in place, else append (dicts keep
insertion order). -/
def assocSet {β : Type} : List (String × β) → String → β → List (String × β)
  | [], k, v => [(k, v)]
  | (k', v') :: rest, k, v =>
    if k' = k then (k', v) :: rest else (k', v') :: assocSet rest k v

/-- In-place mutation of the value stored under an existing key (model of
mutating a nested Python dict). -/
def assocUpdate {β : Type} : List (String × β) → String → (β → β) → List (String × β)
  | [], _, _ => []
  | (k', v') :: rest, k, f =>
    if k' = k then (k', f v') :: rest else (k', v') :: assocUpdate rest k f

/-- Nested dict read `d[k1][k2]`. -/
def assocLookup2 {β : Type} (l : List (String × List (String × β))) (k1 k2 : String) :
    Option β :=
  match assocLookup l k1 with
  | none => none
  | some m => assocLookup m k2

theorem assocLookup_assocSet_self {β : Type} (l : List (String × β)) (k : String) (v : β) :
    assocLookup (assocSet l k v) k = some v := by
  induction l with
  | nil => simp [assocSet, assocLookup]
  | cons kv rest ih =>
    obtain ⟨k', v'⟩ := kv
    by_cases h : k' = k
    · simp [assocSet, assocLookup, h]
    · simp [assocSet, assocLookup, h, ih]

theorem assocLookup_assocSet_ne {β : Type} (l : List (String × β)) (k k' : String) (v : β)
    (h : k' ≠ k) : assocLookup (assocSet l k v) k' = assocLookup l k' := by
  induction l with
  | nil => simp [assocSet, assocLookup, Ne.symm h]
  | cons kv rest ih =>
    obtain ⟨k0, v0⟩ := kv
    by_cases h0 : k0 = k
    · subst h0
      simp [assocSet, assocLookup, Ne.symm h]
    · simp only [assocSet, if_neg h0, assocLookup]
      by_cases h1 : k0 = k'
      · simp [h1]
      · simp [h1, ih]

theorem assocLookup_assocUpdate_self {β : Type} (l : List (String × β)) (k : String)
    (f : β → β) (m : β) (h : assocLookup l k = some m) :
    assocLookup (assocUpdate l k f) k = some (f m) := by
  induction l with
  | nil => simp [assocLookup] at h
  | cons kv rest ih =>
    obtain ⟨k0, v0⟩ := kv
    by_cases h0 : k0 = k
    · subst h0
      simp [assocLookup] at h
      simp [assocUpdate, assocLookup, h]
    · simp [assocLookup, h0] at h
      simp [assocUpdate, assocLookup, h0, ih h]

theorem assocLookup_assocUpdate_ne {β : Type} (l : List (String × β)) (k k' : String)
    (f : β → β) (h : k' ≠ k) :
    assocLookup (assocUpdate l k f) k' = assocLookup l k' := by
  induction l with
  | nil => simp [assocUpdate, assocLookup]
  | cons kv rest ih =>
    obtain ⟨k0, v0⟩ := kv
    by_cases h0 : k0 = k
    · subst h0
      simp [assocUpdate, assocLookup, Ne.symm h]
    · simp only [assocUpdate, if_neg h0, assocLookup]
      by_cases h1 : k0 = k'
      · simp [h1]
      · simp [h1, ih]

end Dlstats

namespace Dlstats

/-! ## BIS: `BIS_Data.build_series` (`bis.py` lines 484-522) -/

/-- Python `s.split(":")` on strings. -/
def pySplitColon (s : String) : List String :=
  (splitOnChar ':' s.data).map (fun cs => ⟨cs⟩)

/-- One entry of a series' `values` list. -/
structure BisObs where
  period : String
  value : String
  attributes : Option String
deriving DecidableEq, Repr

/-- The series record (`bson`) built by `BIS_Data.build_series`. -/
structure BisSeries where
  provider_name : String
  dataset_code : String
  name : String
  key : String
  values : List BisObs
  attributes : Option String
  dimensions : List (String × String)
  last_update : PyDateTime
  start_date : Int
  end_date : Int
  frequency : String
deriving DecidableEq, Repr

/-- The `BIS_Data` attributes that `build_series` reads. -/
structure BisDataState where
  provider_name : String
  dataset_code : String
  dimension_keys : List String
  periods : List String
  codelists : List (String × List (String × String))
  release_date : PyDateTime
  start_date : Int
  end_date : Int
  frequency : String

/-- The dimension loop of `build_series` (`bis.py` lines 489-496): for each
dimension key `d`, split `row[d]` on `":"`, store the short id in the
ordered `dimensions` dict and record `(short, long)` in
`dataset.codelists[d]` (created on first use).  `none` models the
`KeyError` of a missing column or the `IndexError` of `split(":")[1]` on a
colon-free cell. -/
def buildDims (row : List (String × String)) :
    List String → List (String × String) →
    List (String × List (String × String)) →
    Option (List (String × String) × List (String × List (String × String)))
  | [], dims, cls => some (dims, cls)
  | d :: ds, dims, cls =>
    match assocLookup row d with
    | none => none
    | some cell =>
      match (pySplitColon cell).get? 0, (pySplitColon cell).get? 1 with
      | some shortId, some longId =>
        let cls1 := match assocLookup cls d with
          | none => cls ++ [(d, [])]
          | some _ => cls
        let cls2 := assocUpdate cls1 d (fun m => assocSet m shortId longId)
        buildDims row ds (assocSet dims d shortId) cls2
      | _, _ => none

/-- The name comprehension of `build_series` (`bis.py` line 498):
`row[d].split(":")[1]` for each dimension key. -/
def buildNameParts (row : List (String × String)) : List String → Option (List String)
  | [] => some []
  | d :: ds =>
    match assocLookup row d with
    | none => none
    | some cell =>
      match (pySplitColon cell).get? 1 with
      | none => none
      | some longId =>
        match buildNameParts row ds with
        | none => none
        | some parts => some (longId :: parts)

/-- The values loop of `build_series` (`bis.py` lines 500-508): one
`{attributes: None, period, value: row[period]}` entry per period. -/
def buildValues (row : List (String × String)) : List String → Option (List BisObs)
  | [] => some []
  | p :: ps =>
    match assocLookup row p with
    | none => none
    | some v =>
      match buildValues row ps with
      | none => none
      | some vs => some (⟨p, v, none⟩ :: vs)

/-- `BIS_Data.build_series` (`bis.py` lines 484-522): the returned `bson`
record together with the `dataset.codelists` dict after the loop's updates.
`none` models an uncaught `KeyError`/`IndexError`. -/
def build_series (st : BisDataState) (row : List (String × String)) :
    Option (BisSeries × List (String × List (String × String))) :=
  match assocLookup row "KEY" with
  | none => none
  | some series_key =>
    match buildDims row st.dimension_keys [] st.codelists with
    | none => none
    | some (dims, cls) =>
      match buildNameParts row st.dimension_keys with
      | none => none
      | some parts =>
        match buildValues row st.periods with
        | none => none
        | some vals =>
          some (⟨st.provider_name, st.dataset_code,
                 String.intercalate " - " parts, series_key, vals, none, dims,
                 st.release_date, st.start_date, st.end_date, st.frequency⟩,
                cls)

end Dlstats

namespace Dlstats

theorem splitOnChar_not_mem (c : Char) (ys : List Char) (h : c ∉ ys) :
    splitOnChar c ys = [ys] := by
  induction ys with
  | nil => rfl
  | cons y ys' ih =>
    have hy : y ≠ c := fun he => h (by simp [he])
    have ih' := ih (fun hm => h (by simp [hm]))
    rw [splitOnChar]
    simp [hy, ih']

theorem splitOnChar_append (c : Char) (xs ys : List Char) (h : c ∉ xs) :
    splitOnChar c (xs ++ c :: ys) = xs :: splitOnChar c ys := by
  induction xs with
  | nil =>
    simp only [List.nil_append]
    rw [splitOnChar]
    simp
  | cons x xs' ih =>
    have hx : x ≠ c := fun he => h (by simp [he])
    have ih' := ih (fun hm => h (by simp [hm]))
    simp only [List.cons_append]
    rw [splitOnChar]
    simp [hx, ih']

theorem pySplitColon_pair (s t : String) (hs : ':' ∉ s.data) (ht : ':' ∉ t.data) :
    pySplitColon (s ++ ":" ++ t) = [s, t] := by
  have hdata : (s ++ ":" ++ t).data = s.data ++ ':' :: t.data := by
    simp [String.data_append]
  rw [pySplitColon, hdata, splitOnChar_append ':' s.data t.data hs,
    splitOnChar_not_mem ':' t.data ht]
  rfl

theorem assocLookup_append_self {β : Type} (l : List (String × β)) (d : String)
    (v : β) (h : assocLookup l d = none) :
    assocLookup (l ++ [(d, v)]) d = some v := by
  induction l with
  | nil => simp [assocLookup]
  | cons kv rest ih =>
    obtain ⟨k0, v0⟩ := kv
    by_cases h0 : k0 = d
    · simp [assocLookup, h0] at h
    · simp [assocLookup, h0] at h ⊢
      exact ih h

theorem assocLookup_append_single {β : Type} (l : List (String × β)) (d k : String)
    (v : β) (h : k ≠ d) : assocLookup (l ++ [(d, v)]) k = assocLookup l k := by
  induction l with
  | nil => simp [assocLookup, Ne.symm h]
  | cons kv rest ih =>
    obtain ⟨k0, v0⟩ := kv
    by_cases h0 : k0 = k
    · simp [assocLookup, h0]
    · simp [assocLookup, h0, ih]

theorem assocSet_of_not_mem {β : Type} (l : List (String × β)) (k : String) (v : β)
    (h : assocLookup l k = none) : assocSet l k v = l ++ [(k, v)] := by
  induction l with
  | nil => rfl
  | cons kv rest ih =>
    obtain ⟨k0, v0⟩ := kv
    by_cases h0 : k0 = k
    · simp [assocLookup, h0] at h
    · simp [assocLookup, h0] at h
      simp [assocSet, h0, ih h]

theorem buildDims_spec (row : List (String × String)) (f : String → String × String)
    (ds : List String) (dims0 : List (String × String))
    (cls0 : List (String × List (String × String)))
    (hnd : ds.Nodup)
    (hdisj : ∀ d ∈ ds, assocLookup dims0 d = none)
    (hrow : ∀ d ∈ ds, assocLookup row d = some ((f d).1 ++ ":" ++ (f d).2))
    (hs : ∀ d ∈ ds, ':' ∉ (f d).1.data)
    (ht : ∀ d ∈ ds, ':' ∉ (f d).2.data) :
    ∃ cls', buildDims row ds dims0 cls0 =
        some (dims0 ++ ds.map (fun d => (d, (f d).1)), cls') ∧
      (∀ d ∈ ds, assocLookup2 cls' d (f d).1 = some (f d).2) ∧
      (∀ k, k ∉ ds → assocLookup cls' k = assocLookup cls0 k) := by
  induction ds generalizing dims0 cls0 with
  | nil => exact ⟨cls0, by simp [buildDims], by simp, fun k _ => rfl⟩
  | cons d ds' ih =>
    have hsplit := pySplitColon_pair (f d).1 (f d).2 (hs d (by simp)) (ht d (by simp))
    rw [List.nodup_cons] at hnd
    -- the codelists dict after `if not d in codelists` and the nested update
    set cls1 : List (String × List (String × String)) :=
      (match assocLookup cls0 d with
        | none => cls0 ++ [(d, [])]
        | some _ => cls0) with hcls1
    have hcls1d : ∃ m0, assocLookup cls1 d = some m0 := by
      rw [hcls1]
      cases h0 : assocLookup cls0 d with
      | none =>
        exact ⟨[], assocLookup_append_self cls0 d [] h0⟩
      | some m0 =>
        exact ⟨m0, h0⟩
    have hcls1ne : ∀ k, k ≠ d → assocLookup cls1 k = assocLookup cls0 k := by
      intro k hk
      rw [hcls1]
      cases h0 : assocLookup cls0 d with
      | none => exact assocLookup_append_single cls0 d k [] hk
      | some m0 => rfl
    obtain ⟨m0, hm0⟩ := hcls1d
    set cls2 := assocUpdate cls1 d (fun m => assocSet m (f d).1 (f d).2) with hcls2
    have hcls2d : assocLookup cls2 d = some (assocSet m0 (f d).1 (f d).2) :=
      assocLookup_assocUpdate_self cls1 d _ m0 hm0
    have hcls2ne : ∀ k, k ≠ d → assocLookup cls2 k = assocLookup cls0 k := by
      intro k hk
      rw [hcls2, assocLookup_assocUpdate_ne cls1 d k _ hk]
      exact hcls1ne k hk
    have hset : assocSet dims0 d (f d).1 = dims0 ++ [(d, (f d).1)] :=
      assocSet_of_not_mem dims0 d (f d).1 (hdisj d (by simp))
    obtain ⟨cls', hrun, hmem, hpres⟩ :=
      ih (assocSet dims0 d (f d).1) cls2 hnd.2
        (fun d' hd' => by
          rw [assocSet_of_not_mem dims0 d (f d).1 (hdisj d (by simp)),
            assocLookup_append_single dims0 d d' (f d).1
              (fun he => hnd.1 (he ▸ hd'))]
          exact hdisj d' (by simp [hd']))
        (fun d' hd' => hrow d' (by simp [hd']))
        (fun d' hd' => hs d' (by simp [hd']))
        (fun d' hd' => ht d' (by simp [hd']))
    refine ⟨cls', ?_, ?_, ?_⟩
    · simp only [buildDims, hrow d (by simp), hsplit, List.get?]
      rw [← hcls1, ← hcls2, hrun, hset]
      simp
    · intro d' hd'
      rcases List.mem_cons.mp hd' with he | hd''
      · subst he
        rw [assocLookup2, hpres d' hnd.1, hcls2d]
        show assocLookup (assocSet m0 (f d').1 (f d').2) (f d').1 = some (f d').2
        rw [assocLookup_assocSet_self]
      · exact hmem d' hd''
    · intro k hk
      rw [hpres k (fun hm => hk (by simp [hm]))]
      exact hcls2ne k (fun he => hk (by simp [he]))

end Dlstats

namespace Dlstats

theorem buildNameParts_spec (row : List (String × String)) (f : String → String × String)
    (ds : List String)
    (hrow : ∀ d ∈ ds, assocLookup row d = some ((f d).1 ++ ":" ++ (f d).2))
    (hs : ∀ d ∈ ds, ':' ∉ (f d).1.data)
    (ht : ∀ d ∈ ds, ':' ∉ (f d).2.data) :
    buildNameParts row ds = some (ds.map (fun d => (f d).2)) := by
  induction ds with
  | nil => rfl
  | cons d ds' ih =>
    have hsplit := pySplitColon_pair (f d).1 (f d).2 (hs d (by simp)) (ht d (by simp))
    rw [buildNameParts, hrow d (by simp)]
    simp only [hsplit, List.get?]
    rw [ih (fun d' hd' => hrow d' (by simp [hd']))
      (fun d' hd' => hs d' (by simp [hd']))
      (fun d' hd' => ht d' (by simp [hd']))]
    simp

theorem buildValues_spec (row : List (String × String)) (g : String → String)
    (ps : List String)
    (hrow : ∀ p ∈ ps, assocLookup row p = some (g p)) :
    buildValues row ps = some (ps.map (fun p => ⟨p, g p, none⟩)) := by
  induction ps with
  | nil => rfl
  | cons p ps' ih =>
    rw [buildValues, hrow p (by simp),
      ih (fun p' hp' => hrow p' (by simp [hp']))]
    simp

/-- C7: for a row keyed by the headers of a parsed BIS file — each
dimension cell of the shape `short ++ ":" ++ long` with colon-free parts —
`build_series` returns the record whose key is `row["KEY"]`, whose
`dimensions` map each dimension key to the part of its cell before the
`":"`, whose name joins the parts after the `":"` with `" - "` in
dimension-key order, and whose values hold one
`{period, value := row[period], attributes := None}` entry per period in
period order; and afterwards every `(short, long)` pair is recorded in
`dataset.codelists` under its dimension. -/
theorem bis_build_series_spec (st : BisDataState) (row : List (String × String))
    (k : String) (f : String → String × String) (g : String → String)
    (hnd : st.dimension_keys.Nodup)
    (hk : assocLookup row "KEY" = some k)
    (hrow : ∀ d ∈ st.dimension_keys,
      assocLookup row d = some ((f d).1 ++ ":" ++ (f d).2))
    (hs : ∀ d ∈ st.dimension_keys, ':' ∉ (f d).1.data)
    (ht : ∀ d ∈ st.dimension_keys, ':' ∉ (f d).2.data)
    (hp : ∀ p ∈ st.periods, assocLookup row p = some (g p)) :
    ∃ cls', build_series st row =
        some (⟨st.provider_name, st.dataset_code,
               String.intercalate " - " (st.dimension_keys.map (fun d => (f d).2)),
               k, st.periods.map (fun p => ⟨p, g p, none⟩), none,
               st.dimension_keys.map (fun d => (d, (f d).1)),
               st.release_date, st.start_date, st.end_date, st.frequency⟩, cls') ∧
      ∀ d ∈ st.dimension_keys, assocLookup2 cls' d (f d).1 = some (f d).2 := by
  obtain ⟨cls', hrun, hmem, -⟩ :=
    buildDims_spec row f st.dimension_keys [] st.codelists hnd
      (fun d _ => rfl) hrow hs ht
  refine ⟨cls', ?_, hmem⟩
  rw [build_series, hk, hrun, buildNameParts_spec row f st.dimension_keys hrow hs ht,
    buildValues_spec row g st.periods hp]
  simp

end Dlstats

namespace Dlstats

/-- C7 (witness): a two-dimension, one-period row. -/
theorem bis_build_series_spec_witness :
    ∃ cls', build_series
        ⟨"BIS", "CBS", ["FREQ", "CTY"], ["2000-Q1"], [], ⟨2015, 9, 16, 8, 13, 35⟩,
          120, 120, "Q"⟩
        [("FREQ", "Q:Quarterly"), ("CTY", "CH:Switzerland"), ("KEY", "K1"),
         ("2000-Q1", "1.5")] =
      some (⟨"BIS", "CBS",
             String.intercalate " - " (["FREQ", "CTY"].map
               (fun d => (if d = "FREQ" then ("Q", "Quarterly")
                 else ("CH", "Switzerland") : String × String).2)),
             "K1", ["2000-Q1"].map (fun p => ⟨p, "1.5", none⟩), none,
             ["FREQ", "CTY"].map (fun d =>
               (d, (if d = "FREQ" then ("Q", "Quarterly")
                 else ("CH", "Switzerland") : String × String).1)),
             ⟨2015, 9, 16, 8, 13, 35⟩, 120, 120, "Q"⟩, cls') ∧
      ∀ d ∈ ["FREQ", "CTY"], assocLookup2 cls' d
          (if d = "FREQ" then ("Q", "Quarterly")
            else ("CH", "Switzerland") : String × String).1 =
        some (if d = "FREQ" then ("Q", "Quarterly")
            else ("CH", "Switzerland") : String × String).2 :=
  bis_build_series_spec
    ⟨"BIS", "CBS", ["FREQ", "CTY"], ["2000-Q1"], [], ⟨2015, 9, 16, 8, 13, 35⟩,
      120, 120, "Q"⟩
    [("FREQ", "Q:Quarterly"), ("CTY", "CH:Switzerland"), ("KEY", "K1"),
     ("2000-Q1", "1.5")]
    "K1" (fun d => if d = "FREQ" then ("Q", "Quarterly") else ("CH", "Switzerland"))
    (fun _ => "1.5") (by decide) (by decide) (by decide) (by decide) (by decide)
    (by decide)

end Dlstats

namespace Dlstats

/-! ## BIS: `upsert_dataset` and `is_updated` (`bis.py` lines 224-247, 455-466) -/

/-- Python `datetime` comparison `a < b`: lexicographic on the fields. -/
def PyDateTime.lt (a b : PyDateTime) : Bool :=
  if a.year ≠ b.year then a.year < b.year
  else if a.month ≠ b.month then a.month < b.month
  else if a.day ≠ b.day then a.day < b.day
  else if a.hour ≠ b.hour then a.hour < b.hour
  else if a.minute ≠ b.minute then a.minute < b.minute
  else a.second < b.second

theorem PyDateTime.lt_irrefl (a : PyDateTime) : PyDateTime.lt a a = false := by
  simp [PyDateTime.lt]

/-- The dataset codes of the BIS `DATASETS` table (`bis.py` lines 106-204). -/
def bisDatasetCodes : List String :=
  ["LBS-DISS", "CBS", "DSS", "CNFS", "DSRP", "PP-SS", "PP-LS", "EERI"]

/-- `BIS_Data.is_updated` (`bis.py` lines 455-466): `dataset_doc` is the
stored dataset document's `last_update` (or `none` when
`find_one` returns nothing). -/
def bis_is_updated (dataset_doc : Option PyDateTime) (release_date : PyDateTime) :
    Bool :=
  match dataset_doc with
  | none => true
  | some last_update => PyDateTime.lt last_update release_date

/-- Outcome of `BIS.upsert_dataset`. -/
inductive UpsertOutcome where
  | updateDatabase
  | rejectUpdated
  | unknownDataset
deriving DecidableEq, Repr

/-- `BIS.upsert_dataset` (`bis.py` lines 224-247): unknown codes raise, an
updated file runs `dataset.update_database()`, otherwise
`RejectUpdatedDataset` is raised. -/
def bis_upsert_dataset (dataset_code : String) (dataset_doc : Option PyDateTime)
    (release_date : PyDateTime) : UpsertOutcome :=
  if bisDatasetCodes.contains dataset_code = false then .unknownDataset
  else if bis_is_updated dataset_doc release_date then .updateDatabase
  else .rejectUpdated

/-- C9: for a known dataset code, `upsert_dataset` writes the dataset if
and only if no dataset document is stored or the file's release date is
strictly later than the stored `last_update`; otherwise it raises
`RejectUpdatedDataset`; in particular a release equal to the stored
`last_update` is rejected. -/
theorem bis_upsert_dataset_spec (dataset_code : String)
    (dataset_doc : Option PyDateTime) (release_date : PyDateTime)
    (hknown : bisDatasetCodes.contains dataset_code = true) :
    (bis_upsert_dataset dataset_code dataset_doc release_date =
        UpsertOutcome.updateDatabase ↔
      (dataset_doc = none ∨
        ∃ lu, dataset_doc = some lu ∧ PyDateTime.lt lu release_date = true)) ∧
    (bis_upsert_dataset dataset_code dataset_doc release_date ≠
        UpsertOutcome.updateDatabase →
      bis_upsert_dataset dataset_code dataset_doc release_date =
        UpsertOutcome.rejectUpdated) ∧
    (dataset_doc = some release_date →
      bis_upsert_dataset dataset_code dataset_doc release_date =
        UpsertOutcome.rejectUpdated) := by
  rw [bis_upsert_dataset, hknown]
  simp only [Bool.true_eq_false, if_false]
  refine ⟨?_, ?_, ?_⟩
  · cases dataset_doc with
    | none => simp [bis_is_updated]
    | some lu =>
      simp only [bis_is_updated]
      by_cases h : PyDateTime.lt lu release_date = true
      · rw [if_pos h]
        exact ⟨fun _ => Or.inr ⟨lu, rfl, h⟩, fun _ => rfl⟩
      · rw [if_neg h]
        constructor
        · intro hc
          exact absurd hc (by simp)
        · rintro (hc | ⟨lu', he, hlt⟩)
          · exact absurd hc (by simp)
          · injection he with he'
            subst he'
            exact absurd hlt h
  · cases dataset_doc with
    | none => simp [bis_is_updated]
    | some lu =>
      simp only [bis_is_updated]
      by_cases h : PyDateTime.lt lu release_date = true
      · rw [if_pos h]
        intro hc
        exact absurd rfl hc
      · rw [if_neg h]
        exact fun _ => rfl
  · rintro rfl
    simp [bis_is_updated, PyDateTime.lt_irrefl]

/-- C9 (witness): for `"CBS"`, a new dataset is written, an equal release
date is rejected. -/
theorem bis_upsert_dataset_spec_witness :
    bis_upsert_dataset "CBS" none ⟨2015, 9, 16, 8, 13, 35⟩ =
        UpsertOutcome.updateDatabase ∧
      bis_upsert_dataset "CBS" (some ⟨2015, 9, 16, 8, 13, 35⟩)
          ⟨2015, 9, 16, 8, 13, 35⟩ = UpsertOutcome.rejectUpdated :=
  ⟨((bis_upsert_dataset_spec "CBS" none ⟨2015, 9, 16, 8, 13, 35⟩
      (by decide)).1).mpr (Or.inl rfl),
   ((bis_upsert_dataset_spec "CBS" (some ⟨2015, 9, 16, 8, 13, 35⟩)
      ⟨2015, 9, 16, 8, 13, 35⟩ (by decide)).2).2 rfl⟩

end Dlstats

namespace Dlstats

/-! ## BIS: `get_calendar` (`bis.py` lines 350-392) over a parsed agenda -/

/-- A month cell of the agenda's first row
(a `datetime.strptime(text, "%B %Y")` result). -/
structure BisMonth where
  year : Nat
  month : Nat
deriving DecidableEq, Repr

/-- One agenda data row as `_parse_agenda` produces it: first column
title, optional second-column title, then one day cell per month column
(`none` models the `&nbsp;` cells, and the digit strings matched by
`re.match('\\d\\d|\\d', ...)` and later passed to `int(day)` are already
converted). -/
structure AgendaRow where
  title1 : String
  title2 : Option String
  days : List (Option Nat)
deriving DecidableEq, Repr

/-- The `agenda_titles` of the BIS `DATASETS` table (`bis.py` lines
106-204), in the table's insertion order. -/
def bisAgendaTitles : List (String × List String) :=
  [("LBS-DISS", ["Banking statistics Locational"]),
   ("CBS", ["Banking statistics Consolidated"]),
   ("DSS", ["Debt securities statistics International",
            "Debt securities statistics Domestic and total"]),
   ("CNFS", ["Credit to non-financial sector"]),
   ("DSRP", ["Debt service ratio"]),
   ("PP-SS", ["Property prices Selected"]),
   ("PP-LS", ["Property prices long"]),
   ("EERI", ["Effective exchange rates"])]

/-- The `_get_dataset_code` closure of `get_calendar` (`bis.py` lines
361-365): first dataset whose `agenda_titles` contain the title. -/
def getDatasetCodeIn : List (String × List String) → String → Option String
  | [], _ => none
  | (key, titles) :: rest, title =>
    if titles.contains title then some key else getDatasetCodeIn rest title

/-- `_get_dataset_code` over the real `DATASETS` table. -/
def getDatasetCode (title : String) : Option String :=
  getDatasetCodeIn bisAgendaTitles title

/-- One calendar action dict yielded by `get_calendar`. -/
structure CalAction where
  action : String
  provider_name : String
  dataset_code : String
  run_year : Nat
  run_month : Nat
  run_day : Nat
  run_hour : Nat
  run_minute : Nat
  run_second : Nat
  timezone : String
deriving DecidableEq, Repr

/-- Title of a row (`bis.py` lines 368-370): the first column, extended by
the second when that one is truthy. -/
def rowTitle (row : AgendaRow) : String :=
  match row.title2 with
  | some t2 => if t2 ≠ "" then row.title1 ++ " " ++ t2 else row.title1
  | none => row.title1

/-- `BIS.get_calendar` (`bis.py` lines 350-392): `months` is
`agenda[0][2:]`, `rows` is `agenda[1:]` and `dataset_codes` the codes of
`datasets_list()`.  Rows whose title matches no dataset, or a dataset not
listed, are skipped; otherwise one action per `(month, day)` pair of
`zip(months, days)` with a non-`None` day is yielded. -/
def get_calendar (months : List BisMonth) (rows : List AgendaRow)
    (dataset_codes : List String) : List CalAction :=
  match rows with
  | [] => []
  | row :: rest =>
    let title := rowTitle row
    match getDatasetCode title with
    | none => get_calendar months rest dataset_codes
    | some code =>
      if dataset_codes.contains code = false then
        get_calendar months rest dataset_codes
      else
        (let scheds := (months.zip row.days).filterMap
          (fun md => match md.2 with
            | none => none
            | some day => some (md.1, day))
        scheds.map (fun md =>
          ⟨"update-dataset", "BIS", code, md.1.year, md.1.month, md.2,
           8, 0, 0, "Europe/Zurich"⟩))
        ++ get_calendar months rest dataset_codes

/-- C5: `get_calendar` yields, for each agenda row whose (possibly
second-column-extended) title matches the `agenda_titles` of an
implemented and listed dataset, exactly one `"update-dataset"` action per
`(month, day)` pair with a non-`None` day, whose run date is
`datetime(month.year, month.month, day, 8, 0, 0)` in timezone
`"Europe/Zurich"`; rows matching no implemented (or no listed) dataset
yield no action. -/
theorem bis_get_calendar_spec (months : List BisMonth) (rows : List AgendaRow)
    (dataset_codes : List String) :
    get_calendar months rows dataset_codes = rows.flatMap (fun row =>
      match getDatasetCode (rowTitle row) with
      | none => []
      | some code =>
        if dataset_codes.contains code then
          (months.zip row.days).filterMap (fun md => md.2.map (fun day =>
            ⟨"update-dataset", "BIS", code, md.1.year, md.1.month, day,
             8, 0, 0, "Europe/Zurich"⟩))
        else []) := by
  induction rows with
  | nil => rfl
  | cons row rest ih =>
    rw [get_calendar, List.flatMap_cons, ← ih]
    cases hcode : getDatasetCode (rowTitle row) with
    | none => simp
    | some code =>
      dsimp only
      by_cases hlist : dataset_codes.contains code = true
      · rw [hlist]
        simp only [Bool.true_eq_false, if_false, if_true]
        congr 1
        rw [List.map_filterMap]
        congr 1
        funext md
        obtain ⟨m, dd⟩ := md
        cases dd with
        | none => rfl
        | some day => rfl
      · have hlist' : dataset_codes.contains code = false := by
          simpa using hlist
        rw [hlist', if_pos rfl]
        simp

end Dlstats

namespace Dlstats

/-! ## ECB: `ECBData` (`ecb.py` lines 90-155) -/

/-- One downloaded slice, the 4-tuple `sdmx.ecb.raw_data(...)` returns:
per-series values, per-series period lists, per-series attribute dicts and
per-series ordered dimension dicts. -/
structure EcbRawData where
  values : List (String × List String)
  dates : List (String × List String)
  attributes : List (String × List (String × String))
  dimensions : List (String × List (String × String))
deriving DecidableEq, Repr

/-- The series keys of a slice in the order `__next__` indexes them:
`list(current_raw_data[2].keys())`. -/
def keysOf (r : EcbRawData) : List String :=
  r.attributes.map Prod.fst

/-- `ECBData._largest_dimension` (`ecb.py` lines 110-116): running maximum
of the code-list sizes, seeded with `('', 0)`. -/
def ecb_largest_dimension (codes : List (String × List String)) : String × Nat :=
  codes.foldl
    (fun counter kv =>
      if kv.2.length > counter.2 then (kv.1, kv.2.length) else counter)
    ("", 0)

/-- The slice-fetching loop of `ECBData.__init__` (`ecb.py` lines
101-106): one `sdmx.ecb.raw_data(dataset_code, {pivot: code})` call per
code of the pivot dimension, in code order.  `raw_data` abstracts the SDMX
client; `none` models the `KeyError` on `self.codes[...]`. -/
def ecbInitRawDatas {α : Type} (codes : List (String × List String))
    (raw_data : String → String → α) : Option (List α) :=
  match assocLookup codes (ecb_largest_dimension codes).1 with
  | none => none
  | some cs => some (cs.map (raw_data (ecb_largest_dimension codes).1))

theorem ecb_largest_dimension_fold (l : List (String × List String))
    (c : String × Nat) :
    (List.foldl
        (fun counter kv =>
          if kv.2.length > counter.2 then (kv.1, kv.2.length) else counter)
        c l = c ∨
      ∃ kv ∈ l,
        List.foldl
          (fun counter kv =>
            if kv.2.length > counter.2 then (kv.1, kv.2.length) else counter)
          c l = (kv.1, kv.2.length)) ∧
    c.2 ≤ (List.foldl
      (fun counter kv =>
        if kv.2.length > counter.2 then (kv.1, kv.2.length) else counter)
      c l).2 ∧
    ∀ kv ∈ l, kv.2.length ≤ (List.foldl
      (fun counter kv =>
        if kv.2.length > counter.2 then (kv.1, kv.2.length) else counter)
      c l).2 := by
  induction l generalizing c with
  | nil => exact ⟨Or.inl rfl, Nat.le_refl _, by simp⟩
  | cons kv0 rest ih =>
    simp only [List.foldl_cons]
    by_cases h0 : kv0.2.length > c.2
    · rw [if_pos h0]
      obtain ⟨hm, hle, hbound⟩ := ih (kv0.1, kv0.2.length)
      refine ⟨?_, ?_, ?_⟩
      · rcases hm with hm | ⟨kv, hkv, hm⟩
        · exact Or.inr ⟨kv0, by simp, hm⟩
        · exact Or.inr ⟨kv, by simp [hkv], hm⟩
      · exact Nat.le_trans (Nat.le_of_lt h0) hle
      · intro kv hkv
        rcases List.mem_cons.mp hkv with he | hkv'
        · subst he
          exact hle
        · exact hbound kv hkv'
    · rw [if_neg h0]
      obtain ⟨hm, hle, hbound⟩ := ih c
      refine ⟨?_, hle, ?_⟩
      · rcases hm with hm | ⟨kv, hkv, hm⟩
        · exact Or.inl hm
        · exact Or.inr ⟨kv, by simp [hkv], hm⟩
      · intro kv hkv
        rcases List.mem_cons.mp hkv with he | hkv'
        · subst he
          exact Nat.le_trans (Nat.le_of_not_lt h0) hle
        · exact hbound kv hkv'

theorem assocLookup_of_mem_nodup {β : Type} (l : List (String × β))
    (kv : String × β) (hnd : (l.map Prod.fst).Nodup) (hm : kv ∈ l) :
    assocLookup l kv.1 = some kv.2 := by
  induction l with
  | nil => simp at hm
  | cons kv0 rest ih =>
    simp only [List.map_cons, List.nodup_cons] at hnd
    rcases List.mem_cons.mp hm with he | hm'
    · subst he
      simp [assocLookup]
    · have hne : kv0.1 ≠ kv.1 := by
        intro he
        exact hnd.1 (he ▸ List.mem_map_of_mem Prod.fst hm')
      simp only [assocLookup, if_neg hne]
      exact ih hnd.2 hm'

/-- C4: `_largest_dimension` returns a pair `(key, n)` with `n` the
code-count of dimension `key`, maximal among all dimensions; `__init__`
then fetches exactly one raw-data slice per code of that pivot dimension,
in code order. -/
theorem ecb_largest_dimension_spec (codes : List (String × List String))
    (hnd : (codes.map Prod.fst).Nodup)
    (hne : ∃ kv ∈ codes, 0 < kv.2.length) :
    ∃ cs, assocLookup codes (ecb_largest_dimension codes).1 = some cs ∧
      cs.length = (ecb_largest_dimension codes).2 ∧
      (∀ kv ∈ codes, kv.2.length ≤ (ecb_largest_dimension codes).2) ∧
      ∀ (raw_data : String → String → EcbRawData),
        ecbInitRawDatas codes raw_data =
          some (cs.map (raw_data (ecb_largest_dimension codes).1)) := by
  obtain ⟨hm, -, hbound⟩ := ecb_largest_dimension_fold codes ("", 0)
  obtain ⟨kv0, hkv0, hpos⟩ := hne
  have hmem : ∃ kv ∈ codes, ecb_largest_dimension codes = (kv.1, kv.2.length) := by
    rcases hm with hm | h
    · exfalso
      have hb := hbound kv0 hkv0
      rw [hm] at hb
      simp only [] at hb
      omega
    · exact h
  obtain ⟨kv, hkv, heq⟩ := hmem
  have hlook : assocLookup codes (ecb_largest_dimension codes).1 = some kv.2 := by
    rw [heq]
    exact assocLookup_of_mem_nodup codes kv hnd hkv
  refine ⟨kv.2, hlook, by rw [heq], hbound, ?_⟩
  intro raw_data
  rw [ecbInitRawDatas, hlook]

/-- C4 (witness): the code lists of the ECB test fixture; the pivot is
`OTHER_DIM` with its three codes. -/
theorem ecb_largest_dimension_spec_witness :
    ∃ cs, assocLookup [("FREQ", ["M", "Q"]), ("OTHER_DIM", ["O1", "O2", "O3"])]
        (ecb_largest_dimension
          [("FREQ", ["M", "Q"]), ("OTHER_DIM", ["O1", "O2", "O3"])]).1 = some cs ∧
      cs.length = (ecb_largest_dimension
          [("FREQ", ["M", "Q"]), ("OTHER_DIM", ["O1", "O2", "O3"])]).2 ∧
      (∀ kv ∈ [("FREQ", ["M", "Q"]), ("OTHER_DIM", ["O1", "O2", "O3"])],
        kv.2.length ≤ (ecb_largest_dimension
          [("FREQ", ["M", "Q"]), ("OTHER_DIM", ["O1", "O2", "O3"])]).2) ∧
      ∀ (raw_data : String → String → EcbRawData),
        ecbInitRawDatas [("FREQ", ["M", "Q"]), ("OTHER_DIM", ["O1", "O2", "O3"])]
            raw_data =
          some (cs.map (raw_data (ecb_largest_dimension
            [("FREQ", ["M", "Q"]), ("OTHER_DIM", ["O1", "O2", "O3"])]).1)) :=
  ecb_largest_dimension_spec _ (by decide)
    ⟨("FREQ", ["M", "Q"]), by decide, by decide⟩

end Dlstats

namespace Dlstats

/-- Python list indexing `l[i]` with negative-index wrap-around;
`none` models `IndexError`. -/
def pyGet {α : Type} (l : List α) (i : Int) : Option α :=
  if 0 ≤ i then l.get? i.toNat
  else if 0 ≤ (l.length : Int) + i then l.get? ((l.length : Int) + i).toNat
  else none

/-- The series dict built by `ECBData.__next__` (`ecb.py` lines 134-155). -/
structure EcbSeries where
  provider : String
  datasetCode : String
  key : String
  name : String
  values : List String
  frequency : String
  startDate : Int
  endDate : Int
  attributes : List (String × String)
  dimensions : List (String × String)
deriving DecidableEq, Repr

/-- The two instance counters `_codes_to_process` and `_keys_to_process`
of `ECBData`, both initialised to `-1`. -/
structure EcbIterState where
  codes_to_process : Int
  keys_to_process : Int
deriving DecidableEq, Repr

/-- Outcome of one `__next__` call: a yielded series with the mutated
state, `StopIteration` with the mutated state, or an uncaught exception
(`IndexError`/`KeyError`). -/
inductive EcbStep where
  | yield (s : EcbSeries) (st : EcbIterState)
  | stop (st : EcbIterState)
  | error
deriving DecidableEq, Repr

/-- `ECBData.__next__` (`ecb.py` lines 121-155).  `periodOrdinal`
abstracts `pandas.Period(date, freq).ordinal`.  The key count is taken
from `raw_data[0]` and the key at the current index from the keys of
`raw_data[2]`, as in the source; the series record reads `raw_data[3]`
(name, frequency, dimensions), `raw_data[0]` (values) and `raw_data[1]`
(start and end periods). -/
def ecbNext (raw_datas : List EcbRawData) (periodOrdinal : String → String → Int)
    (dataset_code : String) (st : EcbIterState) : EcbStep :=
  let codes0 : Int :=
    if st.codes_to_process = -1 then (raw_datas.length : Int) - 1
    else st.codes_to_process
  match pyGet raw_datas codes0 with
  | none => .error
  | some cur =>
    let keys0 : Int :=
      if st.keys_to_process = -1 then (cur.values.length : Int) - 1
      else st.keys_to_process
    match pyGet (keysOf cur) keys0 with
    | none => .error
    | some current_key =>
      let keys1 := keys0 - 1
      let codes1 := if keys1 = -1 then codes0 - 1 else codes0
      if keys1 = -1 ∧ codes1 = -1 then .stop ⟨codes1, keys1⟩
      else
        match assocLookup cur.dimensions current_key,
            assocLookup cur.values current_key,
            assocLookup cur.dates current_key with
        | some dims, some vals, some dts =>
          match assocLookup dims "FREQ", dts.get? 0, pyGet dts (-1) with
          | some freq, some d0, some dl =>
            .yield
              ⟨"ECB", dataset_code, current_key,
               String.intercalate "-" (dims.map Prod.snd), vals, freq,
               periodOrdinal d0 freq, periodOrdinal dl freq, [], dims⟩
              ⟨codes1, keys1⟩
          | _, _, _ => .error
        | _, _, _ => .error

/-- How a run of repeated `__next__` calls ends. -/
inductive EcbRunEnd where
  | stopped
  | errored
  | fuelOut
deriving DecidableEq, Repr

/-- Repeated `__next__` calls: the series yielded before the first
`StopIteration` (or error), bounded by `fuel` calls. -/
def ecbRun (raw_datas : List EcbRawData) (periodOrdinal : String → String → Int)
    (dataset_code : String) :
    Nat → EcbIterState → List EcbSeries × EcbRunEnd
  | 0, _ => ([], .fuelOut)
  | fuel + 1, st =>
    match ecbNext raw_datas periodOrdinal dataset_code st with
    | .yield s st' =>
      let r := ecbRun raw_datas periodOrdinal dataset_code fuel st'
      (s :: r.1, r.2)
    | .stop _ => ([], .stopped)
    | .error => ([], .errored)

end Dlstats

namespace Dlstats

/-- Well-formedness of a downloaded slice: the four component dicts are
keyed consistently (as `sdmx.ecb.raw_data` produces them), the slice is
non-empty, and every series has dimensions with a `FREQ`, values, and a
non-empty period list. -/
def SliceOk (r : EcbRawData) : Prop :=
  r.values.length = (keysOf r).length ∧
  keysOf r ≠ [] ∧
  ∀ k ∈ keysOf r,
    ∃ dims freq vals dts,
      assocLookup r.dimensions k = some dims ∧
      assocLookup dims "FREQ" = some freq ∧
      assocLookup r.values k = some vals ∧
      assocLookup r.dates k = some dts ∧ dts ≠ []

/-- Keys of the slices in the reverse processing order of the iterator:
slices from last to first, each slice's keys from last to first. -/
def revKeys (raw : List EcbRawData) : List String :=
  raw.reverse.flatMap (fun r => (keysOf r).reverse)

/-- Total number of series keys across slices. -/
def totalKeys (raw : List EcbRawData) : Nat :=
  (raw.map (fun r => (keysOf r).length)).sum

theorem pyGet_natCast {α : Type} (l : List α) (n : Nat) :
    pyGet l (n : Int) = l.get? n := by
  simp [pyGet]

theorem pyGet_neg_one {α : Type} (l : List α) (h : l ≠ []) :
    pyGet l (-1) = l.get? (l.length - 1) := by
  have hlen : 0 < l.length := List.length_pos.mpr h
  rw [pyGet]
  rw [if_neg (by omega)]
  rw [if_pos (by omega)]
  congr 1
  omega

end Dlstats

namespace Dlstats

theorem ecbNext_step (raw : List EcbRawData) (po : String → String → Int)
    (dc : String) (cj kj : Int) (c k : Nat) (r : EcbRawData) (key : String)
    (hcj : (cj = -1 ∧ c + 1 = raw.length) ∨ cj = (c : Int))
    (hc : raw.get? c = some r)
    (hkj : (kj = -1 ∧ k + 1 = (keysOf r).length) ∨ kj = (k : Int))
    (hlen : r.values.length = (keysOf r).length)
    (hk : (keysOf r).get? k = some key)
    (hok : ∀ k' ∈ keysOf r,
      ∃ dims freq vals dts,
        assocLookup r.dimensions k' = some dims ∧
        assocLookup dims "FREQ" = some freq ∧
        assocLookup r.values k' = some vals ∧
        assocLookup r.dates k' = some dts ∧ dts ≠ []) :
    (k = 0 ∧ c = 0 →
      ecbNext raw po dc ⟨cj, kj⟩ = .stop ⟨-1, -1⟩) ∧
    (¬(k = 0 ∧ c = 0) →
      ∃ s, ecbNext raw po dc ⟨cj, kj⟩ =
          .yield s ⟨if k = 0 then (c : Int) - 1 else (c : Int), (k : Int) - 1⟩ ∧
        s.key = key) := by
  have hcodes0 : (if cj = -1 then (raw.length : Int) - 1 else cj) = (c : Int) := by
    rcases hcj with ⟨h1, h2⟩ | h1
    · rw [if_pos h1]
      omega
    · rw [h1]
      rw [if_neg (by omega)]
  have hkeys0 : (if kj = -1 then (r.values.length : Int) - 1 else kj) = (k : Int) := by
    rcases hkj with ⟨h1, h2⟩ | h1
    · rw [if_pos h1, hlen]
      omega
    · rw [h1]
      rw [if_neg (by omega)]
  have hgetraw : pyGet raw (c : Int) = some r := by
    rw [pyGet_natCast]
    exact hc
  have hgetkey : pyGet (keysOf r) (k : Int) = some key := by
    rw [pyGet_natCast]
    exact hk
  rw [ecbNext]
  simp only [hcodes0, hgetraw]
  simp only [hkeys0, hgetkey]
  obtain ⟨dims, freq, vals, dts, hdims, hfreq, hvals, hdts, hdtsne⟩ :=
    hok key (List.get?_mem hk)
  constructor
  · rintro ⟨hk0, hc0⟩
    subst hk0
    subst hc0
    simp
  · intro hne
    have hstop : ¬((k : Int) - 1 = -1 ∧
        (if (k : Int) - 1 = -1 then (c : Int) - 1 else (c : Int)) = -1) := by
      rintro ⟨h1, h2⟩
      rw [if_pos h1] at h2
      exact hne ⟨by omega, by omega⟩
    rw [if_neg hstop]
    obtain ⟨d0, hd0⟩ : ∃ d0, dts.get? 0 = some d0 := by
      cases dts with
      | nil => exact absurd rfl hdtsne
      | cons a l => exact ⟨a, rfl⟩
    obtain ⟨dl, hdl⟩ : ∃ dl, pyGet dts (-1) = some dl := by
      rw [pyGet_neg_one dts hdtsne]
      have hlt : dts.length - 1 < dts.length := by
        have := List.length_pos.mpr hdtsne
        omega
      exact ⟨dts.get ⟨dts.length - 1, hlt⟩, List.get?_eq_get hlt⟩
    rw [hdims, hvals, hdts]
    dsimp only
    rw [hfreq, hd0, hdl]
    dsimp only
    refine ⟨⟨"ECB", dc, key, String.intercalate "-" (List.map Prod.snd dims),
      vals, freq, po d0 freq, po dl freq, [], dims⟩, ?_, rfl⟩
    congr 1
    by_cases hk0 : k = 0
    · subst hk0
      simp
    · have h1 : ¬((k : Int) - 1 = -1) := by omega
      rw [if_neg h1, if_neg hk0]

end Dlstats

namespace Dlstats

theorem dropLast_cons_ne {α : Type} (a : α) (l : List α) (h : l ≠ []) :
    (a :: l).dropLast = a :: l.dropLast := by
  cases l with
  | nil => exact absurd rfl h
  | cons b t => rfl

theorem take_one_of_get? {α : Type} (l : List α) (a : α) (h : l.get? 0 = some a) :
    l.take 1 = [a] := by
  cases l with
  | nil => simp at h
  | cons b t =>
    simp at h
    simp [h]

theorem take_succ_of_get? {α : Type} (l : List α) (n : Nat) (a : α)
    (h : l.get? n = some a) : l.take (n + 1) = l.take n ++ [a] := by
  have h' : l[n]? = some a := by
    rw [← List.get?_eq_getElem?]
    exact h
  rw [List.take_succ, h']
  rfl

theorem totalKeys_take_succ (raw : List EcbRawData) (c : Nat) (r : EcbRawData)
    (h : raw.get? c = some r) :
    totalKeys (raw.take (c + 1)) = totalKeys (raw.take c) + (keysOf r).length := by
  rw [totalKeys, totalKeys, take_succ_of_get? raw c r h, List.map_append,
    List.sum_append]
  simp

theorem revKeys_take_succ (raw : List EcbRawData) (c : Nat) (r : EcbRawData)
    (h : raw.get? c = some r) :
    revKeys (raw.take (c + 1)) = (keysOf r).reverse ++ revKeys (raw.take c) := by
  rw [revKeys, revKeys, take_succ_of_get? raw c r h, List.reverse_append]
  simp

theorem ecbRun_from (raw : List EcbRawData) (po : String → String → Int)
    (dc : String) (hall : ∀ r ∈ raw, SliceOk r) :
    ∀ (c k : Nat) (cj kj : Int) (fuel : Nat) (r : EcbRawData),
      ((cj = -1 ∧ c + 1 = raw.length) ∨ cj = (c : Int)) →
      raw.get? c = some r →
      ((kj = -1 ∧ k + 1 = (keysOf r).length) ∨ kj = (k : Int)) →
      k < (keysOf r).length →
      k + 1 + totalKeys (raw.take c) ≤ fuel →
      (ecbRun raw po dc fuel ⟨cj, kj⟩).2 = EcbRunEnd.stopped ∧
      (ecbRun raw po dc fuel ⟨cj, kj⟩).1.map EcbSeries.key =
        (((keysOf r).take (k + 1)).reverse ++ revKeys (raw.take c)).dropLast := by
  intro c
  induction c with
  | zero =>
    intro k
    induction k with
    | zero =>
      intro cj kj fuel r hcj hc hkj hk hfuel
      obtain ⟨key, hkey⟩ : ∃ key, (keysOf r).get? 0 = some key :=
        List.get?_eq_get hk ▸ ⟨_, rfl⟩
      cases fuel with
      | zero => omega
      | succ f =>
        have hok := hall r (List.get?_mem hc)
        have hstep := (ecbNext_step raw po dc cj kj 0 0 r key hcj hc hkj
          hok.1 hkey hok.2.2).1 ⟨rfl, rfl⟩
        rw [ecbRun, hstep]
        refine ⟨rfl, ?_⟩
        rw [take_one_of_get? (keysOf r) key hkey]
        simp [revKeys]
    | succ k' ihk =>
      intro cj kj fuel r hcj hc hkj hk hfuel
      obtain ⟨key, hkey⟩ : ∃ key, (keysOf r).get? (k' + 1) = some key :=
        List.get?_eq_get hk ▸ ⟨_, rfl⟩
      cases fuel with
      | zero => omega
      | succ f =>
        have hok := hall r (List.get?_mem hc)
        obtain ⟨s, hstep, hskey⟩ := (ecbNext_step raw po dc cj kj 0 (k' + 1) r key
          hcj hc hkj hok.1 hkey hok.2.2).2 (by simp)
        rw [if_neg (by omega : ¬(k' + 1 = 0))] at hstep
        have hcast : ((k' + 1 : Nat) : Int) - 1 = (k' : Int) := by omega
        rw [hcast] at hstep
        rw [ecbRun, hstep]
        obtain ⟨hend, hkeys⟩ := ihk ((0 : Nat) : Int) ((k' : Nat) : Int) f r
          (Or.inr rfl) hc (Or.inr rfl) (by omega) (by omega)
        refine ⟨hend, ?_⟩
        simp only [List.map_cons, hskey, hkeys]
        rw [take_succ_of_get? (keysOf r) (k' + 1) key hkey, List.reverse_append]
        simp only [List.reverse_cons, List.reverse_nil, List.nil_append,
          List.singleton_append, List.cons_append]
        rw [dropLast_cons_ne]
        intro hcon
        have h1 : (keysOf r).take (k' + 1) ≠ [] := by
          intro h2
          have := List.length_take (k' + 1) (keysOf r)
          rw [h2] at this
          simp at this
          omega
        rcases List.append_eq_nil.mp hcon with ⟨h2, -⟩
        exact h1 (by simpa using h2)
  | succ c' ihc =>
    intro k
    induction k with
    | zero =>
      intro cj kj fuel r hcj hc hkj hk hfuel
      obtain ⟨key, hkey⟩ : ∃ key, (keysOf r).get? 0 = some key :=
        List.get?_eq_get hk ▸ ⟨_, rfl⟩
      cases fuel with
      | zero => omega
      | succ f =>
        have hok := hall r (List.get?_mem hc)
        obtain ⟨s, hstep, hskey⟩ := (ecbNext_step raw po dc cj kj (c' + 1) 0 r key
          hcj hc hkj hok.1 hkey hok.2.2).2 (by simp)
        rw [if_pos rfl] at hstep
        have hcast : ((c' + 1 : Nat) : Int) - 1 = (c' : Int) := by omega
        rw [hcast] at hstep
        rw [ecbRun, hstep]
        -- the previous slice
        have hc'lt : c' < raw.length := by
          by_contra hcon
          push_neg at hcon
          rw [List.get?_eq_none.mpr (by omega)] at hc
          exact Option.noConfusion hc
        obtain ⟨r', hr'⟩ : ∃ r', raw.get? c' = some r' :=
          ⟨raw.get ⟨c', hc'lt⟩, List.get?_eq_get hc'lt⟩
        have hok' := hall r' (List.get?_mem hr')
        have hK'pos : 0 < (keysOf r').length := List.length_pos.mpr hok'.2.1
        obtain ⟨hend, hkeys⟩ := ihc ((keysOf r').length - 1) ((c' : Nat) : Int)
          (-1 : Int) f r' (Or.inr rfl) hr' (Or.inl ⟨rfl, by omega⟩) (by omega)
          (by
            have ht := totalKeys_take_succ raw c' r' hr'
            omega)
        refine ⟨hend, ?_⟩
        have hne2 : revKeys (List.take (c' + 1) raw) ≠ [] := by
          rw [revKeys_take_succ raw c' r' hr']
          intro hcon
          rcases List.append_eq_nil.mp hcon with ⟨h2, -⟩
          exact hok'.2.1 (by simpa using h2)
        have htk : (keysOf r').length - 1 + 1 = (keysOf r').length := by omega
        rw [htk, List.take_length] at hkeys
        have hstz : ((0 : Nat) : Int) - 1 = (-1 : Int) := by omega
        rw [hstz]
        simp only [List.map_cons, hskey]
        rw [take_one_of_get? (keysOf r) key hkey]
        simp only [List.reverse_cons, List.reverse_nil, List.nil_append,
          List.singleton_append]
        rw [dropLast_cons_ne key _ hne2]
        congr 1
        rw [revKeys_take_succ raw c' r' hr']
        exact hkeys
    | succ k' ihk =>
      intro cj kj fuel r hcj hc hkj hk hfuel
      obtain ⟨key, hkey⟩ : ∃ key, (keysOf r).get? (k' + 1) = some key :=
        List.get?_eq_get hk ▸ ⟨_, rfl⟩
      cases fuel with
      | zero => omega
      | succ f =>
        have hok := hall r (List.get?_mem hc)
        obtain ⟨s, hstep, hskey⟩ := (ecbNext_step raw po dc cj kj (c' + 1) (k' + 1)
          r key hcj hc hkj hok.1 hkey hok.2.2).2 (by simp)
        rw [if_neg (by omega : ¬(k' + 1 = 0))] at hstep
        have hcast : ((k' + 1 : Nat) : Int) - 1 = (k' : Int) := by omega
        rw [hcast] at hstep
        rw [ecbRun, hstep]
        obtain ⟨hend, hkeys⟩ := ihk (((c' + 1 : Nat)) : Int) ((k' : Nat) : Int) f r
          (Or.inr rfl) hc (Or.inr rfl) (by omega) (by omega)
        refine ⟨hend, ?_⟩
        simp only [List.map_cons, hskey, hkeys]
        rw [take_succ_of_get? (keysOf r) (k' + 1) key hkey, List.reverse_append]
        simp only [List.reverse_cons, List.reverse_nil, List.nil_append,
          List.singleton_append, List.cons_append]
        rw [dropLast_cons_ne]
        intro hcon
        have h1 : (keysOf r).take (k' + 1) ≠ [] := by
          intro h2
          have := List.length_take (k' + 1) (keysOf r)
          rw [h2] at this
          simp at this
          omega
        rcases List.append_eq_nil.mp hcon with ⟨h2, -⟩
        exact h1 (by simpa using h2)

end Dlstats

namespace Dlstats

/-- A one-slice `raw_datas` fixture with two series keys. -/
def ecbSliceAB : EcbRawData :=
  ⟨[("A", ["1"]), ("B", ["2"])],
   [("A", ["2000"]), ("B", ["2001"])],
   [("A", [("OBS_STATUS", "A")]), ("B", [("OBS_STATUS", "A")])],
   [("A", [("FREQ", "M"), ("OTHER_DIM", "O1")]),
    ("B", [("FREQ", "Q"), ("OTHER_DIM", "O1")])]⟩

/-- C3 (counterexample): one downloaded slice with the two series keys
`"A"` and `"B"`; repeated `__next__` calls yield only the series `"B"`
before `StopIteration` — the key `"A"` is never yielded, because
`__next__` raises before returning the series it has just prepared. -/
theorem ecb_next_drops_last_series :
    (ecbRun [ecbSliceAB] (fun _ _ => 0) "2_2_1" 10 ⟨-1, -1⟩).1.map
        EcbSeries.key = ["B"] ∧
    (ecbRun [ecbSliceAB] (fun _ _ => 0) "2_2_1" 10 ⟨-1, -1⟩).2 =
      EcbRunEnd.stopped := by
  constructor
  · decide
  · decide

/-- C3 (amended): for a non-empty `raw_datas` whose slices are well
formed, repeated `__next__` calls process the slices from last to first
and each slice's keys from last to first, yield exactly one series record
per key of every slice except the very last one processed (the first key
of the first slice), whose record is dropped by the `StopIteration` raised
before returning it, and afterwards raise `StopIteration`. -/
theorem ecb_iteration_spec (raw : List EcbRawData) (po : String → String → Int)
    (dc : String) (fuel : Nat) (hne : raw ≠ [])
    (hall : ∀ r ∈ raw, SliceOk r) (hfuel : totalKeys raw ≤ fuel) :
    (ecbRun raw po dc fuel ⟨-1, -1⟩).2 = EcbRunEnd.stopped ∧
    (ecbRun raw po dc fuel ⟨-1, -1⟩).1.map EcbSeries.key =
      (revKeys raw).dropLast := by
  have hlen : 0 < raw.length := List.length_pos.mpr hne
  have hclt : raw.length - 1 < raw.length := by omega
  obtain ⟨r, hr⟩ : ∃ r, raw.get? (raw.length - 1) = some r :=
    ⟨raw.get ⟨raw.length - 1, hclt⟩, List.get?_eq_get hclt⟩
  have hok := hall r (List.get?_mem hr)
  have hKpos : 0 < (keysOf r).length := List.length_pos.mpr hok.2.1
  have htake : raw.take (raw.length - 1 + 1) = raw := by
    apply List.take_of_length_le
    omega
  have ht := totalKeys_take_succ raw (raw.length - 1) r hr
  rw [htake] at ht
  obtain ⟨hend, hkeys⟩ := ecbRun_from raw po dc hall (raw.length - 1)
    ((keysOf r).length - 1) (-1) (-1) fuel r (Or.inl ⟨rfl, by omega⟩) hr
    (Or.inl ⟨rfl, by omega⟩) (by omega) (by omega)
  refine ⟨hend, ?_⟩
  rw [hkeys]
  have htk : (keysOf r).length - 1 + 1 = (keysOf r).length := by omega
  rw [htk, List.take_length, ← revKeys_take_succ raw (raw.length - 1) r hr, htake]

/-- C3 (witness): the amended statement evaluated on the one-slice,
two-key fixture. -/
theorem ecb_iteration_spec_witness :
    (ecbRun [ecbSliceAB] (fun _ _ => 0) "2_2_1" 2 ⟨-1, -1⟩).2 =
        EcbRunEnd.stopped ∧
      (ecbRun [ecbSliceAB] (fun _ _ => 0) "2_2_1" 2 ⟨-1, -1⟩).1.map
          EcbSeries.key = (revKeys [ecbSliceAB]).dropLast :=
  ecb_iteration_spec [ecbSliceAB] (fun _ _ => 0) "2_2_1" 2 (by decide)
    (by
      intro r hr
      simp only [List.mem_singleton] at hr
      subst hr
      refine ⟨by decide, by decide, ?_⟩
      intro k hk
      have hk' : k = "A" ∨ k = "B" := by
        simpa [ecbSliceAB, keysOf] using hk
      rcases hk' with rfl | rfl
      · exact ⟨[("FREQ", "M"), ("OTHER_DIM", "O1")], "M", ["1"], ["2000"],
          by decide, by decide, by decide, by decide, by decide⟩
      · exact ⟨[("FREQ", "Q"), ("OTHER_DIM", "O1")], "Q", ["2"], ["2001"],
          by decide, by decide, by decide, by decide, by decide⟩)
    (by decide)

end Dlstats

namespace Dlstats

/-! ## IMF: `WeoData._process` (`imf.py` lines 1195-1233), per WEO file -/

/-- The truthiness test `not row or not row.get('Country')` negated: the
row is kept while it is non-empty and holds a non-empty `Country` value. -/
def weoRowOk (row : List (String × String)) : Bool :=
  match row with
  | [] => false
  | _ =>
    match assocLookup row "Country" with
    | some s => !(s == "")
    | none => false

/-- The per-file body of `WeoData._process` (`imf.py` lines 1219-1231):
`years = fieldnames[9:-1]`, `start_date`/`end_date` the ordinals of
its first and last entry (`ordinal` abstracts
`get_ordinal_from_period(·, freq='A')`), and the data rows yielded until
the first empty or `Country`-less row.  `none` models the `IndexError`
when the year slice is empty. -/
def weoProcessFile (fieldnames : List String)
    (rows : List (List (String × String))) (ordinal : String → Int) :
    Option (List String × Int × Int × List (List (String × String))) :=
  let years := (fieldnames.drop 9).dropLast
  match years.head?, years.getLast? with
  | some y0, some yl =>
    some (years, ordinal y0, ordinal yl, rows.takeWhile weoRowOk)
  | _, _ => none

theorem takeWhile_characterization {α : Type} (p : α → Bool) (l : List α) :
    ∃ k, l.takeWhile p = l.take k ∧
      (∀ j r, j < k → l.get? j = some r → p r = true) ∧
      (∀ r, l.get? k = some r → p r = false) := by
  induction l with
  | nil => exact ⟨0, by simp, by simp, by simp⟩
  | cons a t ih =>
    obtain ⟨k, hk, hgood, hstop⟩ := ih
    by_cases hp : p a = true
    · refine ⟨k + 1, ?_, ?_, ?_⟩
      · rw [List.takeWhile_cons, if_pos hp, List.take_succ_cons, hk]
      · intro j r hj hr
        cases j with
        | zero =>
          simp at hr
          subst hr
          exact hp
        | succ j' => exact hgood j' r (by omega) (by simpa using hr)
      · intro r hr
        exact hstop r (by simpa using hr)
    · refine ⟨0, ?_, by simp, ?_⟩
      · rw [List.takeWhile_cons, if_neg hp, List.take_zero]
      · intro r hr
        simp at hr
        subst hr
        simpa using hp

/-- C8: per WEO tab file, the period columns are the header's fields from
index 9 up to but excluding the last one, `start_date`/`end_date` are the
ordinals of the first and last period column, and the data rows are
yielded consecutively, stopping at the first row that is empty or has no
(non-empty) `Country` value. -/
theorem weo_process_file_spec (fieldnames : List String)
    (rows : List (List (String × String))) (ordinal : String → Int)
    (hne : (fieldnames.drop 9).dropLast ≠ []) :
    ∃ ys y0 yl out,
      weoProcessFile fieldnames rows ordinal =
        some (ys, ordinal y0, ordinal yl, out) ∧
      ys = (fieldnames.drop 9).dropLast ∧
      (∀ i, i + 10 < fieldnames.length → ys.get? i = fieldnames.get? (9 + i)) ∧
      ys.length + 10 = fieldnames.length ∧
      ys.head? = some y0 ∧ ys.getLast? = some yl ∧
      ∃ k, out = rows.take k ∧
        (∀ j r, j < k → rows.get? j = some r → weoRowOk r = true) ∧
        (∀ r, rows.get? k = some r → weoRowOk r = false) := by
  set ys := (fieldnames.drop 9).dropLast with hys
  obtain ⟨y0, hy0⟩ : ∃ y0, ys.head? = some y0 := by
    cases h : ys.head? with
    | none => exact absurd (List.head?_eq_none_iff.mp h) hne
    | some y0 => exact ⟨y0, rfl⟩
  obtain ⟨yl, hyl⟩ : ∃ yl, ys.getLast? = some yl := by
    cases h : ys.getLast? with
    | none => exact absurd (List.getLast?_eq_none_iff.mp h) hne
    | some yl => exact ⟨yl, rfl⟩
  have hlen9 : 9 < fieldnames.length := by
    by_contra hcon
    push_neg at hcon
    have : fieldnames.drop 9 = [] := List.drop_eq_nil_of_le hcon
    rw [hys, this] at hne
    exact hne rfl
  obtain ⟨k, hk, hgood, hstop⟩ := takeWhile_characterization weoRowOk rows
  refine ⟨ys, y0, yl, rows.takeWhile weoRowOk, ?_, rfl, ?_, ?_, hy0, hyl,
    k, hk, hgood, hstop⟩
  · show (match ys.head?, ys.getLast? with
        | some y0, some yl => some (ys, ordinal y0, ordinal yl, rows.takeWhile weoRowOk)
        | _, _ => none) =
      some (ys, ordinal y0, ordinal yl, rows.takeWhile weoRowOk)
    rw [hy0, hyl]
  · intro i hi
    rw [hys, List.dropLast_eq_take, List.get?_take, List.get?_drop]
    · simp [List.length_drop]
      omega
  · rw [hys, List.length_dropLast, List.length_drop]
    omega

end Dlstats

namespace Dlstats

/-- C8 (witness): a 12-column WEO header (years `1980`, `1981`) and three
data rows, the second of which has an empty `Country`. -/
theorem weo_process_file_spec_witness :
    ∃ ys out,
      weoProcessFile
        ["WEO Country Code", "ISO", "WEO Subject Code", "Country",
         "Subject Descriptor", "Subject Notes", "Units", "Scale",
         "Country-specific Notes", "1980", "1981", "Estimates Start After"]
        [[("Country", "France"), ("1980", "1.0")], [("Country", "")],
         [("Country", "Spain")]] (fun _ => 7) =
        some (ys, 7, 7, out) ∧
      ys = ["1980", "1981"] ∧
      out = [[("Country", "France"), ("1980", "1.0")]] := by
  obtain ⟨ys, y0, yl, out, hrun, hys, -, -, -, -, k, hk, -, -⟩ :=
    weo_process_file_spec
      ["WEO Country Code", "ISO", "WEO Subject Code", "Country",
       "Subject Descriptor", "Subject Notes", "Units", "Scale",
       "Country-specific Notes", "1980", "1981", "Estimates Start After"]
      [[("Country", "France"), ("1980", "1.0")], [("Country", "")],
       [("Country", "Spain")]] (fun _ => 7) (by decide)
  refine ⟨ys, out, ?_, ?_, ?_⟩
  · exact hrun
  · rw [hys]
    decide
  · have : weoProcessFile
        ["WEO Country Code", "ISO", "WEO Subject Code", "Country",
         "Subject Descriptor", "Subject Notes", "Units", "Scale",
         "Country-specific Notes", "1980", "1981", "Estimates Start After"]
        [[("Country", "France"), ("1980", "1.0")], [("Country", "")],
         [("Country", "Spain")]] (fun _ => 7) =
        some (["1980", "1981"], 7, 7,
          [[("Country", "France"), ("1980", "1.0")]]) := rfl
    rw [this] at hrun
    injection hrun with h
    injection h with h1 h2
    injection h2 with h3 h4
    injection h4 with h5 h6
    exact h6.symm

end Dlstats

namespace Dlstats

/-! ## IMF: `IMF_JSON_Data` multi-dataset reprocessing (`imf.py` lines
820-840 and 968-991) -/

/-- Does `pat` occur at the head of `l`? -/
def startsWithL : List Char → List Char → Bool
  | [], _ => true
  | _ :: _, [] => false
  | p :: ps, c :: cs => p = c && startsWithL ps cs

/-- Worker for Python `str.split(sep)` with non-empty `sep`: scan left to
right, cutting at each leftmost occurrence of `sep`.  `fuel` bounds the
scan by the input length. -/
def pySplitGo (sep : List Char) : Nat → List Char → List Char → List (List Char)
  | 0, acc, rest => [acc.reverse ++ rest]
  | _ + 1, acc, [] => [acc.reverse]
  | fuel + 1, acc, c :: cs =>
    if startsWithL sep (c :: cs) then
      acc.reverse :: pySplitGo sep fuel [] ((c :: cs).drop sep.length)
    else
      pySplitGo sep fuel (c :: acc) cs

/-- Python `s.split(sep)` for non-empty `sep` (the only way the source
calls it; Python raises `ValueError` on an empty separator, a case modelled
as the identity chunk here and excluded by hypothesis in the theorems). -/
def pySplit (sep s : String) : List String :=
  if sep.data.isEmpty then [s]
  else (pySplitGo sep.data (s.data.length + 1) [] s.data).map (fun cs => ⟨cs⟩)

/-- Python `int(s)` on a stripped numeric literal: optional sign and
digits; `none` models `ValueError`. -/
def pyInt (s : String) : Option Int :=
  match s.data with
  | '-' :: rest => (digitsToNat rest).map (fun n => -(n : Int))
  | '+' :: rest => (digitsToNat rest).map (fun n => (n : Int))
  | l => (digitsToNat l).map (fun n => (n : Int))

/-- The `previous_last_update` computation of
`_get_data_by_dimension_multi_datasets` (`imf.py` lines 972-980) for a
historical code distinct from the base dataset code: year from the first
four characters after the base prefix, month from the last two (falling
back to 1 on `ValueError` or when outside `1..12`), day 1.  `none` models
the uncaught exceptions: `IndexError` when the base does not occur in the
code, `ValueError` on the year, and the `datetime` constructor's
`ValueError` on a year outside `1..9999`. -/
def imfMonthRule (suffix : List Char) : Int :=
  let monthRaw : Int := (pyInt (String.mk (suffix.drop (suffix.length - 2)))).getD 1
  if monthRaw ≤ 0 ∨ 12 < monthRaw then 1 else monthRaw

def imfPrevLastUpdate (base code : String) : Option PyDateTime :=
  match (pySplit base code).get? 1 with
  | none => none
  | some suffix =>
    match pyInt ⟨suffix.data.take 4⟩ with
    | none => none
    | some year =>
      if 1 ≤ year ∧ year ≤ 9999 then
        some ⟨year.toNat, (imfMonthRule suffix.data).toNat, 1, 0, 0, 0⟩
      else
        none

/-- The `previous_datasets` attribute set up by `IMF_JSON_Data.__init__`
(`imf.py` lines 832-836): the configured historical codes followed by the
current dataset code when there is no stored `last_update` and the
configured list is non-empty, else the empty list. -/
def imfProcessedCodes (last_update : Option PyDateTime)
    (previous : List String) (base : String) : List String :=
  if last_update.isNone && !previous.isEmpty then previous ++ [base] else []

/-- One element of the stream `_get_data_by_dimension_multi_datasets`
yields: a `(row, err)` pair passed through from
`_get_data_by_dimension`, or the `(None, InterruptBatchSeriesData())`
marker. -/
inductive ImfStreamItem (α β : Type) where
  | pair (row : Option α) (err : Option β)
  | interrupt
deriving DecidableEq, Repr

/-- `_get_data_by_dimension_multi_datasets` (`imf.py` lines 968-991):
for each dataset code in turn, compute `previous_last_update` (`none` for
the current dataset code), forward every `(row, err)` pair of
`_get_data_by_dimension` — abstracted by `fetch`, keyed by the code and
the `previous_last_update` that `load_dsd` sees — that has a non-`None`
component, then yield the interrupt marker.  `none` models an uncaught
exception of the date computation. -/
def imfMultiGo {α β : Type} (base : String)
    (fetch : String → Option PyDateTime → List (Option α × Option β)) :
    List String → Option (List (ImfStreamItem α β))
  | [] => some []
  | code :: rest =>
    let plu? : Option (Option PyDateTime) :=
      if code ≠ base then
        match imfPrevLastUpdate base code with
        | none => none
        | some d => some (some d)
      else some none
    match plu? with
    | none => none
    | some plu =>
      match imfMultiGo base fetch rest with
      | none => none
      | some tail =>
        some ((((fetch code plu).filter
            (fun rc => rc.1.isSome || rc.2.isSome)).map
              (fun rc => ImfStreamItem.pair rc.1 rc.2)) ++
          ImfStreamItem.interrupt :: tail)

theorem startsWithL_self_append (p rest : List Char) :
    startsWithL p (p ++ rest) = true := by
  induction p with
  | nil => rfl
  | cons c cs ih => simp [startsWithL, ih]

theorem pySplitGo_no_match (sep : List Char) (l : List Char) (acc : List Char)
    (fuel : Nat) (hfuel : l.length < fuel)
    (hnm : ∀ i, startsWithL sep (l.drop i) = false) :
    pySplitGo sep fuel acc l = [acc.reverse ++ l] := by
  induction l generalizing fuel acc with
  | nil =>
    cases fuel with
    | zero => omega
    | succ f => simp [pySplitGo]
  | cons c cs ih =>
    cases fuel with
    | zero => omega
    | succ f =>
      rw [pySplitGo, if_neg (by simpa using hnm 0)]
      rw [ih (c :: acc) f (by simpa using hfuel) (fun i => by simpa using hnm (i + 1))]
      simp

theorem pySplit_prefix (base suffix : String) (hbase : base.data ≠ [])
    (hnm : ∀ i, startsWithL base.data (suffix.data.drop i) = false) :
    pySplit base (base ++ suffix) = ["", suffix] := by
  rw [pySplit, if_neg (by simpa using hbase)]
  have hdata : (base ++ suffix).data = base.data ++ suffix.data :=
    String.data_append base suffix
  rw [hdata]
  obtain ⟨b, bs, hb⟩ : ∃ b bs, base.data = b :: bs := by
    cases hbb : base.data with
    | nil => exact absurd hbb hbase
    | cons x xs => exact ⟨x, xs, rfl⟩
  rw [hb]
  have hfuel : ((b :: bs) ++ suffix.data).length + 1 =
      (bs.length + suffix.data.length + 1) + 1 := by
    rw [List.length_append, List.length_cons]
    omega
  rw [hfuel]
  have hsw : startsWithL (b :: bs) ((b :: bs) ++ suffix.data) = true :=
    startsWithL_self_append (b :: bs) suffix.data
  rw [show (b :: bs) ++ suffix.data = b :: (bs ++ suffix.data) from rfl] at hsw ⊢
  rw [pySplitGo, if_pos hsw]
  have hdrop : (b :: (bs ++ suffix.data)).drop (b :: bs).length = suffix.data := by
    rw [show b :: (bs ++ suffix.data) = (b :: bs) ++ suffix.data from rfl]
    exact List.drop_left (b :: bs) suffix.data
  rw [hdrop]
  rw [pySplitGo_no_match (b :: bs) suffix.data []
    (bs.length + suffix.data.length + 1) (by omega)
    (fun i => hb ▸ hnm i)]
  rfl

end Dlstats

namespace Dlstats

/-- C6 (counterexample): for a historical code of the form `<base><YYYY>`
whose trailing month digits are absent, the claim prescribes month 1, but
the source takes the last two characters of the suffix — here the year
digits `"12"`, which lie in `1..12` — so `previous_last_update` becomes
`datetime(2012, 12, 1)`, not `datetime(2012, 1, 1)`. -/
theorem imf_prev_last_update_year_only_code :
    imfPrevLastUpdate "GFSR" "GFSR2012" = some ⟨2012, 12, 1, 0, 0, 0⟩ ∧
    imfPrevLastUpdate "GFSR" "GFSR2012" ≠ some ⟨2012, 1, 1, 0, 0, 0⟩ := by
  constructor
  · decide
  · decide

theorem imfMultiGo_flatMap {α β : Type} (base : String)
    (fetch : String → Option PyDateTime → List (Option α × Option β))
    (f : String → PyDateTime) (codes : List String)
    (hcodes : ∀ code ∈ codes, code = base ∨
      imfPrevLastUpdate base code = some (f code)) :
    imfMultiGo base fetch codes =
      some (codes.flatMap (fun code =>
        (((fetch code (if code = base then none else some (f code))).filter
          (fun rc => rc.1.isSome || rc.2.isSome)).map
            (fun rc => ImfStreamItem.pair rc.1 rc.2)) ++
          [ImfStreamItem.interrupt])) := by
  induction codes with
  | nil => rfl
  | cons code rest ih =>
    have htail := ih (fun c hc => hcodes c (by simp [hc]))
    rw [imfMultiGo]
    by_cases hbase : code = base
    · subst hbase
      rw [if_neg (by simp)]
      dsimp only
      rw [htail, List.flatMap_cons, if_pos rfl]
      simp [List.append_assoc]
    · rcases hcodes code (by simp) with he | hplu
      · exact absurd he hbase
      · rw [if_pos hbase, hplu]
        dsimp only
        rw [htail, List.flatMap_cons, if_neg hbase]
        simp [List.append_assoc]

theorem imfMonthRule_toNat (suffix : List Char) :
    (imfMonthRule suffix).toNat =
      (match pyInt ⟨suffix.drop (suffix.length - 2)⟩ with
        | none => 1
        | some m => if m ≤ 0 ∨ 12 < m then 1 else m.toNat) := by
  rw [imfMonthRule]
  cases hpm : pyInt ⟨suffix.drop (suffix.length - 2)⟩ with
  | none => norm_num
  | some m =>
    dsimp only [Option.getD]
    by_cases hm : m ≤ 0 ∨ 12 < m
    · rw [if_pos hm, if_pos hm]
      rfl
    · rw [if_neg hm, if_neg hm]

/-- C6 (amended): when a dataset has no stored `last_update` and a
non-empty `previous_datasets` list, the historical dataset codes are
processed in their listed order followed by the current dataset code, a
`(None, InterruptBatchSeriesData)` marker is yielded after each dataset's
filtered rows, and for a historical code `<base><suffix>` (base not
recurring, first four suffix characters a year in `1..9999`)
`previous_last_update` is `datetime(year, M, 1)` where `M` is the integer
parsed from the last two characters of the suffix when that parse succeeds
and lies in `1..12`, and `1` otherwise — so a year-only code gets the last
two year digits as its month whenever they lie in `1..12`, and month 1
otherwise. -/
theorem imf_multi_datasets_spec {α β : Type}
    (base : String) (previous : List String) (lu : Option PyDateTime)
    (fetch : String → Option PyDateTime → List (Option α × Option β))
    (f : String → PyDateTime)
    (hlu : lu = none) (hprev : previous ≠ [])
    (hcodes : ∀ code ∈ previous, code ≠ base ∧
      imfPrevLastUpdate base code = some (f code)) :
    imfProcessedCodes lu previous base = previous ++ [base] ∧
    imfMultiGo base fetch (imfProcessedCodes lu previous base) =
      some ((previous ++ [base]).flatMap (fun code =>
        (((fetch code (if code = base then none else some (f code))).filter
          (fun rc => rc.1.isSome || rc.2.isSome)).map
            (fun rc => ImfStreamItem.pair rc.1 rc.2)) ++
          [ImfStreamItem.interrupt])) ∧
    (∀ (suffix : String) (y : Int),
      base.data ≠ [] →
      (∀ i, startsWithL base.data (suffix.data.drop i) = false) →
      pyInt ⟨suffix.data.take 4⟩ = some y → 1 ≤ y → y ≤ 9999 →
      imfPrevLastUpdate base (base ++ suffix) =
        some ⟨y.toNat,
          (match pyInt ⟨suffix.data.drop (suffix.data.length - 2)⟩ with
            | none => 1
            | some m => if m ≤ 0 ∨ 12 < m then 1 else m.toNat),
          1, 0, 0, 0⟩) := by
  have hproc : imfProcessedCodes lu previous base = previous ++ [base] := by
    rw [imfProcessedCodes, hlu]
    rw [if_pos (by simp [List.isEmpty_iff, hprev])]
  refine ⟨hproc, ?_, ?_⟩
  · rw [hproc]
    apply imfMultiGo_flatMap
    intro code hc
    rcases List.mem_append.mp hc with hmem | hmem
    · exact Or.inr (hcodes code hmem).2
    · simp at hmem
      exact Or.inl hmem
  · intro suffix y hbase hnm hy hy1 hy2
    rw [imfPrevLastUpdate, pySplit_prefix base suffix hbase hnm]
    simp only [List.get?]
    rw [hy]
    dsimp only
    rw [if_pos ⟨hy1, hy2⟩, imfMonthRule_toNat suffix.data]

/-- C6 (witness): the real `APDREO` configuration (`imf.py` line 144),
with its three historical codes. -/
theorem imf_multi_datasets_spec_witness :
    imfProcessedCodes none ["APDREO201410", "APDREO201504", "APDREO201510"]
        "APDREO" =
      ["APDREO201410", "APDREO201504", "APDREO201510", "APDREO"] ∧
    imfMultiGo "APDREO"
        (fun _ _ => ([(some 0, none), (none, none)] :
          List (Option Nat × Option Nat)))
        (imfProcessedCodes none
          ["APDREO201410", "APDREO201504", "APDREO201510"] "APDREO") =
      some ((["APDREO201410", "APDREO201504", "APDREO201510",
          "APDREO"]).flatMap (fun code =>
        ((((fun (_ : String) (_ : Option PyDateTime) =>
            ([(some 0, none), (none, none)] :
              List (Option Nat × Option Nat))) code
          (if code = "APDREO" then none
            else some (if code = "APDREO201410" then ⟨2014, 10, 1, 0, 0, 0⟩
              else if code = "APDREO201504" then ⟨2015, 4, 1, 0, 0, 0⟩
              else ⟨2015, 10, 1, 0, 0, 0⟩))).filter
          (fun rc => rc.1.isSome || rc.2.isSome)).map
            (fun rc => ImfStreamItem.pair rc.1 rc.2)) ++
          [ImfStreamItem.interrupt])) ∧
    (∀ (suffix : String) (y : Int),
      ("APDREO" : String).data ≠ [] →
      (∀ i, startsWithL ("APDREO" : String).data (suffix.data.drop i) = false) →
      pyInt ⟨suffix.data.take 4⟩ = some y → 1 ≤ y → y ≤ 9999 →
      imfPrevLastUpdate "APDREO" ("APDREO" ++ suffix) =
        some ⟨y.toNat,
          (match pyInt ⟨suffix.data.drop (suffix.data.length - 2)⟩ with
            | none => 1
            | some m => if m ≤ 0 ∨ 12 < m then 1 else m.toNat),
          1, 0, 0, 0⟩) :=
  imf_multi_datasets_spec "APDREO"
    ["APDREO201410", "APDREO201504", "APDREO201510"] none
    (fun _ _ => ([(some 0, none), (none, none)] :
      List (Option Nat × Option Nat)))
    (fun code => if code = "APDREO201410" then ⟨2014, 10, 1, 0, 0, 0⟩
      else if code = "APDREO201504" then ⟨2015, 4, 1, 0, 0, 0⟩
      else ⟨2015, 10, 1, 0, 0, 0⟩)
    rfl (by decide) (by decide)

end Dlstats

namespace Dlstats

/-! ## IMF: `IMF_JSON_Data._json_data_process` (`imf.py` lines 1047-1124) -/

/-- One series of an SDMX-JSON CompactData payload, after the
`_get_list` normalisation: its `@`-prefixed fields and, when the series
has an `"Obs"` entry, its observation list (each observation an
`@`-keyed dict). -/
structure ImfSeries where
  fields : List (String × String)
  obs : Option (List (List (String × String)))
deriving DecidableEq, Repr

/-- One entry of a record's `values` list (`imf.py` lines 1077-1081). -/
structure ImfObsItem where
  period : String
  value : String
  attributes : Option (List (String × String))
deriving DecidableEq, Repr

/-- The normalized series record (`bson`) built per series. -/
structure ImfSeriesRecord where
  provider_name : String
  dataset_code : String
  name : String
  key : String
  values : List ImfObsItem
  attributes : Option (List (String × String))
  dimensions : List (String × String)
  last_update : Option PyDateTime
  start_date : Int
  end_date : Int
  frequency : String
deriving DecidableEq, Repr

/-- The dataset state `_json_data_process` reads; `ordinal` abstracts
`get_ordinal_from_period(period, freq)`. -/
structure ImfContext where
  provider_name : String
  dataset_code : String
  dimension_keys : List String
  attribute_keys : List String
  codelists : List (String × List (String × String))
  last_update : Option PyDateTime
  ordinal : String → String → Int

/-- The per-observation body (`imf.py` lines 1074-1088): observations
without `"@OBS_VALUE"` are skipped (`ok none`); attribute values found
under `"@" ++ key` are recorded under the observation value minus its
first character (as the source's `obs[key][1:]` does) mapped to that
value; a missing `"@TIME_PERIOD"` is an uncaught `KeyError`
(`error`). -/
def imfObsItem (attribute_keys : List String)
    (obs : List (String × String)) : Except Unit (Option ImfObsItem) :=
  match assocLookup obs "@OBS_VALUE" with
  | none => .ok none
  | some value =>
    match assocLookup obs "@TIME_PERIOD" with
    | none => .error ()
    | some period =>
      let attrs : Option (List (String × String)) :=
        attribute_keys.foldl
          (fun acc key =>
            match assocLookup obs ("@" ++ key) with
            | some v =>
              some (assocSet
                (match acc with | none => [] | some m => m)
                ⟨v.data.drop 1⟩ v)
            | none => acc)
          none
      .ok (some ⟨period, value, attrs⟩)

/-- The observation loop (`imf.py` lines 1072-1088): collect the valued
observations in order, skipping the others; an uncaught exception
aborts. -/
def imfCollectValues (attribute_keys : List String) :
    List (List (String × String)) → Except Unit (List ImfObsItem)
  | [] => .ok []
  | o :: os =>
    match imfObsItem attribute_keys o with
    | .error e => .error e
    | .ok none => imfCollectValues attribute_keys os
    | .ok (some item) =>
      match imfCollectValues attribute_keys os with
      | .error e => .error e
      | .ok items => .ok (item :: items)

/-- The dimension loop (`imf.py` lines 1094-1096):
`bson["dimensions"][dim] = series["@" + dim]`. -/
def imfBuildDims (dimension_keys : List String)
    (fields : List (String × String)) : Option (List (String × String)) :=
  match dimension_keys with
  | [] => some []
  | dim :: rest =>
    match assocLookup fields ("@" ++ dim) with
    | none => none
    | some v =>
      match imfBuildDims rest fields with
      | none => none
      | some tail => some ((dim, v) :: tail)

/-- The name comprehension (`imf.py` line 1106):
`codelists[key][dimensions[key]]` per dimension key. -/
def imfBuildNameParts (codelists : List (String × List (String × String)))
    (dims : List (String × String)) : List String → Option (List String)
  | [] => some []
  | dim :: rest =>
    match assocLookup dims dim with
    | none => none
    | some v =>
      match assocLookup2 codelists dim v with
      | none => none
      | some longName =>
        match imfBuildNameParts codelists dims rest with
        | none => none
        | some tail => some (longName :: tail)

/-- The record assembly after the empty-values check (`imf.py` lines
1094-1111): dimensions, optional attributes, key, name, frequency from
`series["@FREQ"]`, and start/end ordinals from the first and last
collected value. -/
def imfBuildRecord (ctx : ImfContext) (s : ImfSeries)
    (values : List ImfObsItem) : Option ImfSeriesRecord :=
  match imfBuildDims ctx.dimension_keys s.fields with
  | none => none
  | some dims =>
    let attrs : Option (List (String × String)) :=
      if ctx.attribute_keys.isEmpty then none
      else
        some (ctx.attribute_keys.foldl
          (fun acc attr =>
            match assocLookup s.fields ("@" ++ attr) with
            | some v => acc ++ [(attr, v)]
            | none => acc)
          [])
    match imfBuildNameParts ctx.codelists dims ctx.dimension_keys with
    | none => none
    | some nameParts =>
      match assocLookup s.fields "@FREQ" with
      | none => none
      | some freq =>
        match values.head?, values.getLast? with
        | some v0, some vl =>
          some ⟨ctx.provider_name, ctx.dataset_code,
            String.intercalate " - " nameParts,
            ctx.dataset_code ++ "." ++
              String.intercalate "." (dims.map Prod.snd),
            values, attrs, dims, ctx.last_update,
            ctx.ordinal v0.period freq, ctx.ordinal vl.period freq, freq⟩
        | _, _ => none

/-- What the loop body of `_json_data_process` does with one series:
skip it (`continue` when there is no `"Obs"` entry), abort the whole
generator (the `return` when no observation carries `"@OBS_VALUE"`),
yield its record, or raise. -/
inductive ImfSeriesOutcome where
  | skip
  | abort
  | yieldRec (rec : ImfSeriesRecord)
  | failure
deriving DecidableEq, Repr

/-- The loop body of `_json_data_process` (`imf.py` lines 1051-1124) for
one series. -/
def imfSeriesStep (ctx : ImfContext) (s : ImfSeries) : ImfSeriesOutcome :=
  match s.obs with
  | none => .skip
  | some obsList =>
    match imfCollectValues ctx.attribute_keys obsList with
    | .error _ => .failure
    | .ok values =>
      if values.isEmpty then .abort
      else
        match imfBuildRecord ctx s values with
        | none => .failure
        | some rec => .yieldRec rec

/-- `_json_data_process` (`imf.py` lines 1047-1124) over a payload's
normalized series list: the records yielded, `none` for an uncaught
exception.  The `abort` outcome ends the generator, dropping every
remaining series. -/
def imfJsonDataProcess (ctx : ImfContext) :
    List ImfSeries → Option (List ImfSeriesRecord)
  | [] => some []
  | s :: rest =>
    match imfSeriesStep ctx s with
    | .skip => imfJsonDataProcess ctx rest
    | .abort => some []
    | .failure => none
    | .yieldRec rec =>
      match imfJsonDataProcess ctx rest with
      | none => none
      | some tail => some (rec :: tail)

/-- Does the loop body yield a record for this series? -/
def ImfSeriesOutcome.isYield : ImfSeriesOutcome → Bool
  | .yieldRec _ => true
  | _ => false

end Dlstats

namespace Dlstats

/-- Fixed test context for the C2 fixtures. -/
def imfCtxFix : ImfContext :=
  ⟨"IMF", "DOT", ["FREQ"], [], [("FREQ", [("A", "Annual")])], none,
   fun _ _ => 7⟩

/-- A series carrying one valued observation. -/
def imfSeriesGood : ImfSeries :=
  ⟨[("@FREQ", "A")], some [[("@TIME_PERIOD", "2000"), ("@OBS_VALUE", "1.5")]]⟩

/-- A series with an `"Obs"` entry none of whose observations carries
`"@OBS_VALUE"`. -/
def imfSeriesEmptyObs : ImfSeries :=
  ⟨[("@FREQ", "A")], some [[("@TIME_PERIOD", "2000")]]⟩

/-- C2 (counterexample): alone, the valued series yields exactly one
record; but when preceded in the payload by a series whose observations
all lack `"@OBS_VALUE"`, the `return` in `_json_data_process` ends the
generator and the valued series yields nothing. -/
theorem imf_json_data_process_drops_after_empty_series :
    imfJsonDataProcess imfCtxFix [imfSeriesGood] =
      some [⟨"IMF", "DOT", "Annual", "DOT.A",
        [⟨"2000", "1.5", none⟩], none, [("FREQ", "A")], none, 7, 7, "A"⟩] ∧
    imfJsonDataProcess imfCtxFix [imfSeriesEmptyObs, imfSeriesGood] =
      some [] := by
  constructor
  · decide
  · decide

/-- C2 (amended): within one payload, series without an `"Obs"` entry are
skipped and every series the loop reaches with a valued observation
yields exactly one record, in payload order — but processing stops at the
first series that has an `"Obs"` entry and no observation carrying
`"@OBS_VALUE"`: that series and every later series of the payload are
dropped. -/
theorem imf_json_data_process_spec (ctx : ImfContext)
    (pre rest : List ImfSeries) (sBad : ImfSeries)
    (recOf : ImfSeries → ImfSeriesRecord)
    (hpre : ∀ s ∈ pre, imfSeriesStep ctx s = ImfSeriesOutcome.skip ∨
      imfSeriesStep ctx s = ImfSeriesOutcome.yieldRec (recOf s))
    (hbad : imfSeriesStep ctx sBad = ImfSeriesOutcome.abort) :
    imfJsonDataProcess ctx pre =
      some ((pre.filter
        (fun s => (imfSeriesStep ctx s).isYield)).map recOf) ∧
    imfJsonDataProcess ctx (pre ++ sBad :: rest) =
      some ((pre.filter
        (fun s => (imfSeriesStep ctx s).isYield)).map recOf) := by
  induction pre with
  | nil =>
    constructor
    · rfl
    · rw [List.nil_append, imfJsonDataProcess, hbad]
      rfl
  | cons s pre' ih =>
    obtain ⟨ih1, ih2⟩ := ih (fun s' hs' => hpre s' (by simp [hs']))
    rcases hpre s (by simp) with hskip | hyield
    · have hfilter : (s :: pre').filter
          (fun s => (imfSeriesStep ctx s).isYield) =
          pre'.filter (fun s => (imfSeriesStep ctx s).isYield) := by
        rw [List.filter_cons_of_neg]
        rw [hskip]
        decide
      constructor
      · rw [imfJsonDataProcess, hskip, hfilter]
        exact ih1
      · rw [List.cons_append, imfJsonDataProcess, hskip, hfilter]
        exact ih2
    · have hfilter : (s :: pre').filter
          (fun s => (imfSeriesStep ctx s).isYield) =
          s :: pre'.filter (fun s => (imfSeriesStep ctx s).isYield) := by
        rw [List.filter_cons_of_pos]
        rw [hyield]
        rfl
      constructor
      · rw [imfJsonDataProcess, hyield, ih1, hfilter]
        rfl
      · rw [List.cons_append, imfJsonDataProcess, hyield, ih2, hfilter]
        rfl

/-- C2 (witness): a payload with a series without `"Obs"`, a valued
series, then an empty-valued series followed by another valued series:
the first two behave per the claim, the trailing ones are dropped. -/
theorem imf_json_data_process_spec_witness :
    imfJsonDataProcess imfCtxFix [⟨[("@FREQ", "A")], none⟩, imfSeriesGood] =
      some (([⟨[("@FREQ", "A")], none⟩, imfSeriesGood].filter
        (fun s => (imfSeriesStep imfCtxFix s).isYield)).map
          (fun _ => (⟨"IMF", "DOT", "Annual", "DOT.A",
            [⟨"2000", "1.5", none⟩], none, [("FREQ", "A")], none, 7, 7,
            "A"⟩ : ImfSeriesRecord))) ∧
    imfJsonDataProcess imfCtxFix
        ([⟨[("@FREQ", "A")], none⟩, imfSeriesGood] ++
          imfSeriesEmptyObs :: [imfSeriesGood]) =
      some (([⟨[("@FREQ", "A")], none⟩, imfSeriesGood].filter
        (fun s => (imfSeriesStep imfCtxFix s).isYield)).map
          (fun _ => (⟨"IMF", "DOT", "Annual", "DOT.A",
            [⟨"2000", "1.5", none⟩], none, [("FREQ", "A")], none, 7, 7,
            "A"⟩ : ImfSeriesRecord))) :=
  imf_json_data_process_spec imfCtxFix
    [⟨[("@FREQ", "A")], none⟩, imfSeriesGood] [imfSeriesGood]
    imfSeriesEmptyObs
    (fun _ => ⟨"IMF", "DOT", "Annual", "DOT.A", [⟨"2000", "1.5", none⟩],
      none, [("FREQ", "A")], none, 7, 7, "A"⟩)
    (by
      intro s hs
      rcases List.mem_cons.mp hs with rfl | hs'
      · exact Or.inl (by decide)
      · simp only [List.mem_singleton] at hs'
        subst hs'
        exact Or.inr (by decide))
    (by decide)

end Dlstats
